import Mathlib

/-!
# hojicoin command-line front end (`cmd/cli/main.go`)

A shallow embedding of the `CLI` type of `cmd/cli/main.go`.  The commands are
glue around the `hoji` ledger package, whose code is not part of the file; the
package is therefore a parameter (`Hoji`), every entry point being a function
of an explicit world state `σ` (the store on disk, the wallet file).  Each
command returns how it ended (`Outcome`), the calls it made in order
(`Event`), and the world it left behind.
-/

namespace Hojicoin

/-! ## Go values -/

/-- A Go byte. -/
abbrev Byte := Fin 256

/-- A Go `[]byte` holding binary data (hashes). -/
abbrev Bytes := List Byte

/-- A Go `error`: `none` is `nil`, `some s` is an error whose `Error()` text is `s`. -/
abbrev GoError := Option String

/-- A Go pointer: `none` is `nil`. -/
abbrev Ptr (α : Type) := Option α

/-- Width of Go `int` (`strconv.IntSize`) on a 64-bit platform. -/
def IntSize : Nat := 64

/-- Two's-complement wrap-around of a mathematical integer into the range of Go `int`. -/
def wrapInt (x : Int) : Int :=
  (x + 2 ^ (IntSize - 1)) % 2 ^ IntSize - 2 ^ (IntSize - 1)

/-- The function `strconv.FormatBool`. -/
def FormatBool (b : Bool) : String := if b then "true" else "false"

/-! ## Data of the `hoji` package -/

/-- Modelled from the spec: the `hoji.TXInput` type (section 3, Input), which `main.go` never
inspects. -/
structure TXInput where
  Txid : Bytes
  Vout : Int
  Signature : Bytes
  PubKey : Bytes
deriving DecidableEq, Repr

/-- Modelled from the spec: the `hoji.TXOutput` type (section 3, Output); `main.go` reads
`Value`, a Go `int`. -/
structure TXOutput where
  Value : Int
  PubKeyHash : Bytes
deriving DecidableEq, Repr

/-- Modelled from the spec: the `hoji.Transaction` type (section 3, Transaction), which
`main.go` only passes around. -/
structure Transaction where
  ID : Bytes
  Vin : List TXInput
  Vout : List TXOutput
deriving DecidableEq, Repr

/-- Modelled from the spec: the coinbase form of `hoji.Transaction` (section 3: a single
input that references no prior output). -/
def Transaction.IsCoinbase (tx : Transaction) : Bool :=
  match tx.Vin with
  | [vin] => vin.Txid.length == 0
  | _ => false

/-- Modelled from the spec: the `hoji.Block` type (section 3, Block); `main.go` reads
`PrevBlockHash` and `Hash`. -/
structure Block where
  PrevBlockHash : Bytes
  Timestamp : Int
  Transactions : List Transaction
  Nonce : Int
  Hash : Bytes
deriving DecidableEq, Repr

/-- Modelled from the spec: the `hoji.Blockchain` handle; `main.go` reads its `DB` field, here
the identity of the open store. -/
structure Blockchain where
  DB : Nat
deriving DecidableEq, Repr

/-- The struct literal `hoji.UTXOSet{Bc: bc}` built by `main.go`. -/
structure UTXOSet where
  Bc : Ptr Blockchain
deriving DecidableEq, Repr

/-- The `hoji` package as `main.go` uses it.  `σ` is the world the package acts on, `W` the
wallet collection behind `*hoji.Wallets`, `I` the chain iterator and `P` the proof-of-work
object.  An address or payload converted with `[]byte(s)` is passed as the string `s`. -/
structure Hoji (σ W I P : Type) where
  ValidateAddress : String → Bool
  CreateBlockchain : String → σ → GoError × σ
  NewBlockchain : σ → (Ptr Blockchain × GoError) × σ
  Close : Nat → σ → σ
  NewTx : Blockchain → String → String → Int → σ → (Ptr Transaction × GoError) × σ
  NewCoinbaseTx : String → String → σ → (Ptr Transaction × GoError) × σ
  MineBlock : Blockchain → List (Ptr Transaction) → σ → (Ptr Block × GoError) × σ
  Update : UTXOSet → Ptr Block → σ → GoError × σ
  FindUTXO : UTXOSet → String → σ → (List TXOutput × GoError) × σ
  Reindex : UTXOSet → σ → σ
  CountTransactions : UTXOSet → σ → (Int × GoError) × σ
  NewWallets : σ → (Ptr W × GoError) × σ
  AddWallet : Ptr W → σ → (String × GoError) × σ
  SaveToFile : Ptr W → σ → σ
  GetAddresses : Ptr W → σ → List String × σ
  Iterator : Blockchain → σ → I × σ
  Next : I → σ → Ptr Block × σ
  NewPOW : Block → P
  Validate : P → Bool

/-! ## Observable behaviour -/

/-- An operand of `fmt.Printf`. -/
inductive Arg where
  | str (s : String)
  | int (n : Int)
  | bytes (b : Bytes)
deriving DecidableEq, Repr

/-- The errors of `flag.FlagSet.Parse` ("bad flag syntax", "flag provided but not defined",
"flag needs an argument", "invalid value ... for flag"), each printed on standard error. -/
inductive FlagErr where
  | badFlag (arg : String)
  | notDefined (name : String)
  | needsArgument (name : String)
  | invalidValue (value name : String)
deriving DecidableEq, Repr

/-- The handlers of `CLI` that `Run` can invoke, with their arguments. -/
inductive Handler where
  | getBalance (address : String)
  | reindexUTXO
  | createBlockchain (address : String)
  | createWallet
  | listAddresses
  | printChain
  | send (sender receiver : String) (amount : Int)
deriving DecidableEq, Repr

/-- One step of a command that is visible from outside: a call into `hoji` with what it
returned, a line of output, or `Run` entering a handler. -/
inductive Event where
  | ValidateAddress (address : String) (ok : Bool)
  | CreateBlockchain (address : String) (err : GoError)
  | NewBlockchain (bc : Ptr Blockchain) (err : GoError)
  | Close (db : Nat)
  | NewTx (bc : Blockchain) (sender receiver : String) (amount : Int) (tx : Ptr Transaction)
      (err : GoError)
  | NewCoinbaseTx (receiver data : String) (tx : Ptr Transaction) (err : GoError)
  | MineBlock (bc : Blockchain) (txs : List (Ptr Transaction)) (b : Ptr Block) (err : GoError)
  | Update (u : UTXOSet) (b : Ptr Block) (err : GoError)
  | FindUTXO (u : UTXOSet) (address : String) (outs : List TXOutput) (err : GoError)
  | Reindex (u : UTXOSet)
  | CountTransactions (u : UTXOSet) (count : Int) (err : GoError)
  | NewWallets (err : GoError)
  | AddWallet (address : String) (err : GoError)
  | SaveToFile
  | GetAddresses (addresses : List String)
  | Iterator (bc : Blockchain)
  | Next (b : Ptr Block)
  | Println (args : List String)
  | Printf (format : String) (args : List Arg)
  | FlagError (e : FlagErr)
  | Usage (flagSet : String)
  | Invoke (h : Handler)
deriving DecidableEq, Repr

/-- How a command ends: it returns, panics through `log.Panic`, dereferences a nil pointer,
leaves through `os.Exit`, or is still running when the bound put on its loop is used up. -/
inductive Outcome where
  | returned
  | panic (msg : String)
  | nilDeref
  | exit (code : Nat)
  | outOfFuel
deriving DecidableEq, Repr

/-- Result of running a command: outcome, calls made, world left behind. -/
abbrev Result (σ : Type) := Outcome × List Event × σ

/-- The statement `log.Panic(err)` for a non-nil `err`: panics with the error text. -/
def logPanic (msg : String) : Outcome := Outcome.panic msg

/-! ## The standard `flag` package, as `Run` uses it -/

/-- What `Run` needs from the Go runtime beyond the `flag` parsing loop: the reading of an
integer flag value, `strconv.ParseInt(s, 0, strconv.IntSize)`, and the status with which
`flag.ExitOnError` leaves after `-h` or `-help` (0 in current Go, 2 in older releases). -/
structure GoEnv where
  ParseInt : String → Option Int
  helpStatus : Nat

/-- The value of a flag defined with `String` or with `Int`. -/
inductive FlagValue where
  | str (s : String)
  | int (n : Int)
deriving DecidableEq, Repr

/-- A defined flag (`flag.Flag`): its name and current value, at first the default. -/
structure Flag where
  Name : String
  Value : FlagValue
deriving DecidableEq, Repr

/-- A `flag.FlagSet` created with `flag.ExitOnError`. -/
structure FlagSet where
  name : String
  formal : List Flag
  parsed : Bool
  args : List String
deriving DecidableEq, Repr

/-- The call `flag.NewFlagSet(name, flag.ExitOnError)`. -/
def NewFlagSet (name : String) : FlagSet :=
  { name := name, formal := [], parsed := false, args := [] }

/-- The calls `f.String(name, value, usage)` and `f.Int(name, value, usage)`. -/
def FlagSet.define (f : FlagSet) (name : String) (value : FlagValue) : FlagSet :=
  { f with formal := f.formal ++ [{ Name := name, Value := value }] }

/-- The lookup `f.formal[name]`. -/
def FlagSet.lookup (f : FlagSet) (name : String) : Option Flag :=
  f.formal.find? (fun fl => fl.Name == name)

/-- The assignment `flag.Value.Set(value)` once the value has been read. -/
def FlagSet.set (f : FlagSet) (name : String) (value : FlagValue) : FlagSet :=
  { f with formal := f.formal.map (fun fl => if fl.Name == name then { fl with Value := value }
      else fl) }

/-- The string behind the pointer that `f.String` returned. -/
def FlagSet.stringValue (f : FlagSet) (name : String) : String :=
  match f.lookup name with
  | some { Name := _, Value := FlagValue.str v } => v
  | _ => ""

/-- The integer behind the pointer that `f.Int` returned. -/
def FlagSet.intValue (f : FlagSet) (name : String) : Int :=
  match f.lookup name with
  | some { Name := _, Value := FlagValue.int n } => n
  | _ => 0

/-- The search for the first `=` in a flag name from its second character on: the name before
it, and the value after it if there is one. -/
def splitAtEquals : List Char → List Char × Option (List Char)
  | [] => ([], none)
  | c :: cs =>
    if c == '=' then ([], some cs)
    else ((c :: (splitAtEquals cs).1), (splitAtEquals cs).2)

/-- Result of `parseOne`: a flag was seen, the flags are over, help was asked for, or an
error was reported. -/
inductive ParseStep where
  | seen (f : FlagSet)
  | done (f : FlagSet)
  | help (f : FlagSet)
  | failed (f : FlagSet) (e : FlagErr)
deriving DecidableEq, Repr

/-- The method `flag.FlagSet.parseOne`, for flag sets without boolean flags. -/
def FlagSet.parseOne (env : GoEnv) (f : FlagSet) : ParseStep :=
  match f.args with
  | [] => ParseStep.done f
  | s :: rest =>
    match s.toList with
    | [] => ParseStep.done f
    | [_] => ParseStep.done f
    | c0 :: c1 :: cs =>
      if c0 != '-' then ParseStep.done f
      else if c1 == '-' && cs.isEmpty then ParseStep.done { f with args := rest }
      else
        match (if c1 == '-' then cs else c1 :: cs) with
        | [] => ParseStep.failed f (FlagErr.badFlag s)
        | n0 :: ns =>
          if n0 == '-' || n0 == '=' then ParseStep.failed f (FlagErr.badFlag s)
          else
            let name := String.mk (n0 :: (splitAtEquals ns).1)
            match f.lookup name with
            | none =>
              if name == "help" || name == "h" then ParseStep.help { f with args := rest }
              else ParseStep.failed { f with args := rest } (FlagErr.notDefined name)
            | some flag =>
              match (splitAtEquals ns).2, rest with
              | none, [] => ParseStep.failed { f with args := rest } (FlagErr.needsArgument name)
              | given, rest1 =>
                let value := match given with
                  | some v => String.mk v
                  | none => rest1.headD ""
                let args2 := match given with
                  | some _ => rest1
                  | none => rest1.tail
                match flag.Value with
                | FlagValue.str _ =>
                  ParseStep.seen ({ f with args := args2 }.set name (FlagValue.str value))
                | FlagValue.int _ =>
                  match env.ParseInt value with
                  | some n =>
                    ParseStep.seen ({ f with args := args2 }.set name (FlagValue.int n))
                  | none =>
                    ParseStep.failed { f with args := args2 } (FlagErr.invalidValue value name)

/-- What `Parse` does to the program: it returns (with a nil error, as the handling is
`ExitOnError`), or it leaves through `os.Exit` after printing. -/
inductive ParseResult where
  | returned (f : FlagSet) (err : GoError)
  | exited (code : Nat) (out : List Event)
deriving DecidableEq, Repr

/-- The loop of `flag.FlagSet.Parse` under `flag.ExitOnError`, for at most `fuel` flags: an
error is printed with the usage and exits with status 2, help prints the usage. -/
def FlagSet.parseLoop (env : GoEnv) : Nat → FlagSet → Option ParseResult
  | 0, _ => none
  | fuel + 1, f =>
    match f.parseOne env with
    | ParseStep.seen f1 => FlagSet.parseLoop env fuel f1
    | ParseStep.done f1 => some (ParseResult.returned f1 none)
    | ParseStep.help _ => some (ParseResult.exited env.helpStatus [Event.Usage f.name])
    | ParseStep.failed _ e =>
      some (ParseResult.exited 2 [Event.FlagError e, Event.Usage f.name])

/-- The method `flag.FlagSet.Parse`; every pass of its loop consumes an argument, so one pass
more than there are arguments is enough. -/
def FlagSet.Parse (env : GoEnv) (f : FlagSet) (arguments : List String) : Option ParseResult :=
  FlagSet.parseLoop env (arguments.length + 1) { f with parsed := true, args := arguments }

/-- What `Parse` can do under `ExitOnError`: return the parsed flag set with a nil error, or
exit with the help status after the usage, or with status 2 after an error and the usage. -/
def ParseResult.wellFormed (env : GoEnv) (name : String) (parsed : Bool) : ParseResult → Prop
  | ParseResult.returned f1 err => err = none ∧ f1.parsed = parsed ∧ f1.name = name
  | ParseResult.exited code out =>
    (code = env.helpStatus ∧ out = [Event.Usage name]) ∨
    (code = 2 ∧ ∃ e, out = [Event.FlagError e, Event.Usage name])


section Commands

variable {σ W I P : Type} (hoji : Hoji σ W I P)

/-- The method `CLI.createBlockchain`. -/
def createBlockchain (address : String) (w : σ) : Result σ :=
  let t0 := [Event.ValidateAddress address (hoji.ValidateAddress address)]
  if !hoji.ValidateAddress address then
    (logPanic "ERROR: Address is not valid", t0, w)
  else
    match hoji.CreateBlockchain address w with
    | (some err, w1) => (logPanic err, t0 ++ [Event.CreateBlockchain address (some err)], w1)
    | (none, w1) =>
      (Outcome.returned, t0 ++ [Event.CreateBlockchain address none, Event.Println ["Done!"]], w1)

/-- The loop `for _, out := range UTXOs { balance += out.Value }` of `CLI.getBalance`, on Go
`int`. -/
def sumBalance (balance : Int) : List TXOutput → Int
  | [] => balance
  | out :: rest => sumBalance (wrapInt (balance + out.Value)) rest

/-- The body of `CLI.getBalance` after `defer bc.DB.Close()`. -/
def getBalanceBody (bc : Blockchain) (address : String) (w : σ) : Result σ :=
  let utxoSet : UTXOSet := { Bc := some bc }
  match hoji.FindUTXO utxoSet address w with
  | ((UTXOs, some err), w1) => (logPanic err, [Event.FindUTXO utxoSet address UTXOs (some err)], w1)
  | ((UTXOs, none), w1) =>
    (Outcome.returned,
      [Event.FindUTXO utxoSet address UTXOs none,
       Event.Printf "Balance of '%s': %d\n" [Arg.str address, Arg.int (sumBalance 0 UTXOs)]], w1)

/-- The method `CLI.getBalance`.  The error of `hoji.NewBlockchain` is discarded; reading
`bc.DB` on a nil handle is a runtime panic; the deferred `Close` runs however the body ends. -/
def getBalance (address : String) (w : σ) : Result σ :=
  let t0 := [Event.ValidateAddress address (hoji.ValidateAddress address)]
  if !hoji.ValidateAddress address then
    (logPanic "ERROR: Address is not valid", t0, w)
  else
    match hoji.NewBlockchain w with
    | ((none, err), w1) => (Outcome.nilDeref, t0 ++ [Event.NewBlockchain none err], w1)
    | ((some bc, err), w1) =>
      let r := getBalanceBody hoji bc address w1
      (r.1, t0 ++ [Event.NewBlockchain (some bc) err] ++ r.2.1 ++ [Event.Close bc.DB],
        hoji.Close bc.DB r.2.2)

/-- The method `CLI.reindexUTXO`.  The error of `hoji.NewBlockchain` and whatever `Reindex`
returns are discarded. -/
def reindexUTXO (w : σ) : Result σ :=
  match hoji.NewBlockchain w with
  | ((bc, err), w1) =>
    let utxoSet : UTXOSet := { Bc := bc }
    let w2 := hoji.Reindex utxoSet w1
    let t0 := [Event.NewBlockchain bc err, Event.Reindex utxoSet]
    match hoji.CountTransactions utxoSet w2 with
    | ((count, some e), w3) => (logPanic e, t0 ++ [Event.CountTransactions utxoSet count (some e)], w3)
    | ((count, none), w3) =>
      (Outcome.returned,
        t0 ++ [Event.CountTransactions utxoSet count none,
          Event.Printf "Done! There are %d transactions in the UTXO set.\n" [Arg.int count]], w3)

/-- The body of `CLI.send` after `defer bc.DB.Close()`. -/
def sendBody (bc : Blockchain) (sender receiver : String) (amount : Int) (w : σ) : Result σ :=
  match hoji.NewTx bc sender receiver amount w with
  | ((tx, some err), w1) => (logPanic err, [Event.NewTx bc sender receiver amount tx (some err)], w1)
  | ((tx, none), w1) =>
    let t1 := [Event.NewTx bc sender receiver amount tx none]
    match hoji.NewCoinbaseTx sender "reward tx" w1 with
    | ((coinbaseTx, some err), w2) =>
      (logPanic err, t1 ++ [Event.NewCoinbaseTx sender "reward tx" coinbaseTx (some err)], w2)
    | ((coinbaseTx, none), w2) =>
      let t2 := t1 ++ [Event.NewCoinbaseTx sender "reward tx" coinbaseTx none]
      let txs := [tx, coinbaseTx]
      match hoji.MineBlock bc txs w2 with
      | ((b, some err), w3) => (logPanic err, t2 ++ [Event.MineBlock bc txs b (some err)], w3)
      | ((b, none), w3) =>
        let t3 := t2 ++ [Event.MineBlock bc txs b none]
        let utxoSet : UTXOSet := { Bc := some bc }
        match hoji.Update utxoSet b w3 with
        | (some err, w4) => (logPanic err, t3 ++ [Event.Update utxoSet b (some err)], w4)
        | (none, w4) =>
          (Outcome.returned, t3 ++ [Event.Update utxoSet b none, Event.Println ["money sent!"]], w4)

/-- The method `CLI.send`. -/
def send (sender receiver : String) (amount : Int) (w : σ) : Result σ :=
  let t0 := [Event.ValidateAddress sender (hoji.ValidateAddress sender)]
  if !hoji.ValidateAddress sender then
    (logPanic "ERROR: from address is not valid", t0, w)
  else
    let t1 := t0 ++ [Event.ValidateAddress receiver (hoji.ValidateAddress receiver)]
    if !hoji.ValidateAddress receiver then
      (logPanic "ERROR: to address is not valid", t1, w)
    else
      match hoji.NewBlockchain w with
      | ((none, err), w1) => (Outcome.nilDeref, t1 ++ [Event.NewBlockchain none err], w1)
      | ((some bc, err), w1) =>
        let r := sendBody hoji bc sender receiver amount w1
        (r.1, t1 ++ [Event.NewBlockchain (some bc) err] ++ r.2.1 ++ [Event.Close bc.DB],
          hoji.Close bc.DB r.2.2)

/-- The method `CLI.createWallet`.  `log.Panic("err creating new wallets", err)` panics with
the two operands printed side by side. -/
def createWallet (w : σ) : Result σ :=
  match hoji.NewWallets w with
  | ((_, some err), w1) =>
    (logPanic ("err creating new wallets" ++ err), [Event.NewWallets (some err)], w1)
  | ((wallets, none), w1) =>
    match hoji.AddWallet wallets w1 with
    | ((address, some err), w2) =>
      (logPanic err, [Event.NewWallets none, Event.AddWallet address (some err)], w2)
    | ((address, none), w2) =>
      (Outcome.returned,
        [Event.NewWallets none, Event.AddWallet address none, Event.SaveToFile,
         Event.Printf "Your new address: %s\n" [Arg.str address]],
        hoji.SaveToFile wallets w2)

/-- One pass through the loop of `CLI.printChain` for a block the iterator returned. -/
def blockEvents (block : Block) : List Event :=
  [Event.Next (some block),
   Event.Printf "Prev. hash: %x\n" [Arg.bytes block.PrevBlockHash],
   Event.Printf "Hash: %x\n" [Arg.bytes block.Hash],
   Event.Printf "PoW: %s\n" [Arg.str (FormatBool (hoji.Validate (hoji.NewPOW block)))],
   Event.Println []]

/-- The `for` loop of `CLI.printChain`, run for at most `fuel` passes.  Reading
`block.PrevBlockHash` on a nil block is a runtime panic. -/
def printChainLoop (bci : I) : Nat → σ → Result σ
  | 0, w => (Outcome.outOfFuel, [], w)
  | fuel + 1, w =>
    match hoji.Next bci w with
    | (none, w1) => (Outcome.nilDeref, [Event.Next none], w1)
    | (some block, w1) =>
      if block.PrevBlockHash.length == 0 then
        (Outcome.returned, blockEvents hoji block, w1)
      else
        let r := printChainLoop bci fuel w1
        (r.1, blockEvents hoji block ++ r.2.1, r.2.2)

/-- The method `CLI.printChain`, its loop bounded by `fuel`. -/
def printChain (fuel : Nat) (w : σ) : Result σ :=
  match hoji.NewBlockchain w with
  | ((none, err), w1) => (Outcome.nilDeref, [Event.NewBlockchain none err], w1)
  | ((some bc, err), w1) =>
    match hoji.Iterator bc w1 with
    | (bci, w2) =>
      let r := printChainLoop hoji bci fuel w2
      (r.1, [Event.NewBlockchain (some bc) err, Event.Iterator bc] ++ r.2.1 ++
        [Event.Close bc.DB], hoji.Close bc.DB r.2.2)

/-- The method `CLI.listAddresses`. -/
def listAddresses (w : σ) : Result σ :=
  match hoji.NewWallets w with
  | ((_, some err), w1) => (logPanic err, [Event.NewWallets (some err)], w1)
  | ((wallets, none), w1) =>
    match hoji.GetAddresses wallets w1 with
    | (addresses, w2) =>
      (Outcome.returned,
        [Event.NewWallets none, Event.GetAddresses addresses] ++
          addresses.map (fun address => Event.Println [address]), w2)

/-- The blocks that `n` successive calls of the iterator's `Next` return, and the world
after them. -/
def nextBlocks (bci : I) : Nat → σ → List (Ptr Block) × σ
  | 0, w => ([], w)
  | n + 1, w =>
    let r := hoji.Next bci w
    (r.1 :: (nextBlocks bci n r.2).1, (nextBlocks bci n r.2).2)

/-- The method `CLI.printUsage`. -/
def printUsage : List Event :=
  [Event.Println ["Usage:"],
   Event.Println ["  getbalance -address ADDRESS - Get balance of ADDRESS"],
   Event.Println ["  createblockchain -address ADDRESS - Create a blockchain and send genesis block reward to ADDRESS"],
   Event.Println ["  reindexutxo - Rebuilds the UTXO set"],
   Event.Println ["  createwallet - Generates a new key-pair and saves it into the wallet file"],
   Event.Println ["  printchain - Print all the blocks of the blockchain"],
   Event.Println ["  send -from FROM -to TO -amount AMOUNT - Send AMOUNT of coins from FROM address to TO"]]

/-- The seven flag sets that `Run` creates. -/
structure Cmds where
  getBalanceCmd : FlagSet
  createBlockchainCmd : FlagSet
  createWalletCmd : FlagSet
  listAddressesCmd : FlagSet
  sendCmd : FlagSet
  printChainCmd : FlagSet
  reindexUTXOCmd : FlagSet
deriving DecidableEq, Repr

/-- The flag sets and flags as `Run` defines them before its `switch`. -/
def newCmds : Cmds :=
  { getBalanceCmd := (NewFlagSet "getbalance").define "address" (FlagValue.str ""),
    createBlockchainCmd := (NewFlagSet "createblockchain").define "address" (FlagValue.str ""),
    createWalletCmd := NewFlagSet "createwallet",
    listAddressesCmd := NewFlagSet "listaddresses",
    sendCmd := (((NewFlagSet "send").define "from" (FlagValue.str "")).define "to"
      (FlagValue.str "")).define "amount" (FlagValue.int 0),
    printChainCmd := NewFlagSet "printchain",
    reindexUTXOCmd := NewFlagSet "reindexutxo" }

/-- A handler called from `Run`: the call is recorded, then the handler runs. -/
def invoke (h : Handler) (r : Result σ) : Result σ :=
  (r.1, Event.Invoke h :: r.2.1, r.2.2)

/-- Sequencing of two statements of `Run`: the second runs when the first returned. -/
def andThen (r : Result σ) (k : σ → Result σ) : Result σ :=
  match r.1 with
  | Outcome.returned => ((k r.2.2).1, r.2.1 ++ (k r.2.2).2.1, (k r.2.2).2.2)
  | _ => r

/-- The `if ...Parsed()` statements that end `Run`, in their order. -/
def runParsed (fuel : Nat) (c : Cmds) (w : σ) : Result σ :=
  andThen
    (if c.getBalanceCmd.parsed then
      if c.getBalanceCmd.stringValue "address" == "" then
        (Outcome.exit 1, [Event.Usage c.getBalanceCmd.name], w)
      else
        invoke (Handler.getBalance (c.getBalanceCmd.stringValue "address"))
          (getBalance hoji (c.getBalanceCmd.stringValue "address") w)
    else (Outcome.returned, [], w)) fun w =>
  andThen
    (if c.reindexUTXOCmd.parsed then invoke Handler.reindexUTXO (reindexUTXO hoji w)
    else (Outcome.returned, [], w)) fun w =>
  andThen
    (if c.createBlockchainCmd.parsed then
      if c.createBlockchainCmd.stringValue "address" == "" then
        (Outcome.exit 1, [Event.Usage c.createBlockchainCmd.name], w)
      else
        invoke (Handler.createBlockchain (c.createBlockchainCmd.stringValue "address"))
          (createBlockchain hoji (c.createBlockchainCmd.stringValue "address") w)
    else (Outcome.returned, [], w)) fun w =>
  andThen
    (if c.createWalletCmd.parsed then invoke Handler.createWallet (createWallet hoji w)
    else (Outcome.returned, [], w)) fun w =>
  andThen
    (if c.listAddressesCmd.parsed then invoke Handler.listAddresses (listAddresses hoji w)
    else (Outcome.returned, [], w)) fun w =>
  andThen
    (if c.printChainCmd.parsed then invoke Handler.printChain (printChain hoji fuel w)
    else (Outcome.returned, [], w)) fun w =>
    (if c.sendCmd.parsed then
      if c.sendCmd.stringValue "from" == "" || c.sendCmd.stringValue "to" == "" ||
          c.sendCmd.intValue "amount" ≤ 0 then
        (Outcome.exit 1, [Event.Usage c.sendCmd.name], w)
      else
        invoke (Handler.send (c.sendCmd.stringValue "from") (c.sendCmd.stringValue "to")
            (c.sendCmd.intValue "amount"))
          (send hoji (c.sendCmd.stringValue "from") (c.sendCmd.stringValue "to")
            (c.sendCmd.intValue "amount") w)
    else (Outcome.returned, [], w))

/-- One `case` of the `switch` of `Run`: parse the arguments with the flag set of the command
and, unless `Parse` left the program or returned an error, go on with the flag set parsed. -/
def parseCase (env : GoEnv) (f : FlagSet) (arguments : List String) (w : σ)
    (k : FlagSet → Result σ) : Result σ :=
  match f.Parse env arguments with
  | none => (Outcome.outOfFuel, [], w)
  | some (ParseResult.exited code out) => (Outcome.exit code, out, w)
  | some (ParseResult.returned _ (some err)) => (logPanic err, [], w)
  | some (ParseResult.returned f1 none) => k f1

/-- The method `CLI.Run` on the command line `osArgs` (`os.Args`), with `validateArgs` in
front; `fuel` bounds the loop of `printChain`. -/
def Run (env : GoEnv) (fuel : Nat) (osArgs : List String) (w : σ) : Result σ :=
  match osArgs with
  | [] => (Outcome.exit 1, printUsage, w)
  | [_] => (Outcome.exit 1, printUsage, w)
  | _ :: cmd :: rest =>
    let c := newCmds
    if cmd = "getbalance" then
      parseCase env c.getBalanceCmd rest w fun f =>
        runParsed hoji fuel { c with getBalanceCmd := f } w
    else if cmd = "createblockchain" then
      parseCase env c.createBlockchainCmd rest w fun f =>
        runParsed hoji fuel { c with createBlockchainCmd := f } w
    else if cmd = "reindexutxo" then
      parseCase env c.reindexUTXOCmd rest w fun f =>
        runParsed hoji fuel { c with reindexUTXOCmd := f } w
    else if cmd = "createwallet" then
      parseCase env c.createWalletCmd rest w fun f =>
        runParsed hoji fuel { c with createWalletCmd := f } w
    else if cmd = "listaddresses" then
      parseCase env c.listAddressesCmd rest w fun f =>
        runParsed hoji fuel { c with listAddressesCmd := f } w
    else if cmd = "printchain" then
      parseCase env c.printChainCmd rest w fun f =>
        runParsed hoji fuel { c with printChainCmd := f } w
    else if cmd = "send" then
      parseCase env c.sendCmd rest w fun f =>
        runParsed hoji fuel { c with sendCmd := f } w
    else (Outcome.exit 1, printUsage, w)

end Commands

/-! ## A small ledger to run the commands on -/

/-- World of the small ledger: the chain (tip first), the unspent outputs, the wallet
addresses, and the position of the iterator. -/
structure DemoWorld where
  chain : List Block
  utxo : List TXOutput
  wallets : List String
  cursor : List Block
deriving DecidableEq, Repr

/-- Modelled from the spec: the locking hash of an address, here simply its characters. -/
def demoLock (address : String) : Bytes :=
  address.toList.map (fun c => Fin.ofNat c.toNat)

/-- Modelled from the spec: the fixed block reward. -/
def demoSubsidy : Int := 10

/-- Modelled from the spec: `NewCoinbaseTx` (section 4.3): one input with empty reference
fields carrying the data, one output of the block reward locked to the recipient. -/
def demoCoinbase (receiver data : String) : Transaction :=
  { ID := 0 :: demoLock receiver,
    Vin := [{ Txid := [], Vout := -1, Signature := [], PubKey := demoLock data }],
    Vout := [{ Value := demoSubsidy, PubKeyHash := demoLock receiver }] }

/-- Sum of the unspent outputs locked to an address. -/
def demoFunds (address : String) (utxo : List TXOutput) : Int :=
  ((utxo.filter (fun o => o.PubKeyHash == demoLock address)).map TXOutput.Value).sum

/-- Modelled from the spec: `NewTransaction` (section 4.3), spending every output of the
sender and returning the change. -/
def demoPayment (sender receiver : String) (amount funds : Int) : Transaction :=
  { ID := 1 :: demoLock sender,
    Vin := [{ Txid := [1], Vout := 0, Signature := [1], PubKey := demoLock sender }],
    Vout := { Value := amount, PubKeyHash := demoLock receiver } ::
      (if funds > amount then [{ Value := funds - amount, PubKeyHash := demoLock sender }]
       else []) }

/-- Modelled from the spec: a mined block on top of the chain (section 4.5). -/
def demoBlock (chain : List Block) (txs : List Transaction) : Block :=
  { PrevBlockHash := match chain with
      | [] => []
      | tip :: _ => tip.Hash,
    Timestamp := 0, Transactions := txs, Nonce := 0,
    Hash := [Fin.ofNat (chain.length + 1)] }

/-- Modelled from the spec: `Update` (section 4.6) for one transaction. -/
def demoApply (utxo : List TXOutput) (tx : Transaction) : List TXOutput :=
  (if tx.IsCoinbase then utxo
   else utxo.filter (fun o => !(tx.Vin.any (fun i => i.PubKey == o.PubKeyHash)))) ++ tx.Vout

/-- Modelled from the spec: a small instance of the `hoji` package with two known addresses. -/
def demoHoji : Hoji DemoWorld Unit Unit Block where
  ValidateAddress a := a == "Addr1" || a == "Addr2"
  CreateBlockchain a w :=
    match w.chain with
    | [] => (none, { w with chain := [demoBlock [] [demoCoinbase a "genesis"]],
                            utxo := (demoCoinbase a "genesis").Vout })
    | _ :: _ => (some "blockchain already exists", w)
  NewBlockchain w :=
    match w.chain with
    | [] => ((none, some "no existing blockchain found"), w)
    | _ :: _ => ((some { DB := 1 }, none), w)
  Close _ w := w
  NewTx _ sender receiver amount w :=
    if demoFunds sender w.utxo < amount then ((none, some "not enough funds"), w)
    else ((some (demoPayment sender receiver amount (demoFunds sender w.utxo)), none), w)
  NewCoinbaseTx receiver data w := ((some (demoCoinbase receiver data), none), w)
  MineBlock _ txs w :=
    if txs.any Option.isNone then ((none, some "invalid transaction"), w)
    else
      let b := demoBlock w.chain (txs.filterMap id)
      ((some b, none), { w with chain := b :: w.chain })
  Update _ b w :=
    match b with
    | none => (some "no block", w)
    | some b => (none, { w with utxo := b.Transactions.foldl demoApply w.utxo })
  FindUTXO _ a w := ((w.utxo.filter (fun o => o.PubKeyHash == demoLock a), none), w)
  Reindex _ w :=
    { w with utxo := (w.chain.reverse.flatMap Block.Transactions).foldl demoApply [] }
  CountTransactions _ w := ((w.utxo.length, none), w)
  NewWallets w := ((some (), none), w)
  AddWallet _ w :=
    match ["Addr1", "Addr2"].filter (fun a => !w.wallets.contains a) with
    | [] => (("", some "no address left"), w)
    | a :: _ => ((a, none), { w with wallets := w.wallets ++ [a] })
  SaveToFile _ w := w
  GetAddresses _ w := (w.wallets, w)
  Iterator _ w := ((), { w with cursor := w.chain })
  Next _ w :=
    match w.cursor with
    | [] => (none, w)
    | b :: rest => (some b, { w with cursor := rest })
  NewPOW b := b
  Validate b := b.Hash.length == 1

/-- The world before any chain exists. -/
def demoEmpty : DemoWorld := { chain := [], utxo := [], wallets := [], cursor := [] }

/-- The world after `createblockchain -address Addr1`. -/
def demoFunded : DemoWorld := (createBlockchain demoHoji "Addr1" demoEmpty).2.2

/-! ## Reading a trace -/

/-- Calls of `UTXOSet.Update`. -/
def Event.isUpdate : Event → Bool
  | Event.Update _ _ _ => true
  | _ => false

/-- Calls of `Blockchain.MineBlock`. -/
def Event.isMineBlock : Event → Bool
  | Event.MineBlock _ _ _ _ => true
  | _ => false

/-- Calls of the iterator's `Next`. -/
def Event.isNext : Event → Bool
  | Event.Next _ => true
  | _ => false

/-- The proof-of-work result shown by a `PoW:` line of `printChain`. -/
def Event.powLine : Event → Option Bool
  | Event.Printf "PoW: %s\n" [Arg.str "true"] => some true
  | Event.Printf "PoW: %s\n" [Arg.str "false"] => some false
  | _ => none

/-- The hash shown by a `Hash:` line of `printChain`. -/
def Event.hashLine : Event → Option Bytes
  | Event.Printf "Hash: %x\n" [Arg.bytes h] => some h
  | _ => none

/-- Calls of `hoji.NewCoinbaseTx`. -/
def Event.isNewCoinbaseTx : Event → Bool
  | Event.NewCoinbaseTx _ _ _ _ => true
  | _ => false

/-- The chain operations of the package: `CreateBlockchain`, `NewBlockchain`, `NewTx`,
`NewCoinbaseTx`, `MineBlock`, `FindUTXO`, `Update`. -/
def Event.isChainOp : Event → Bool
  | Event.CreateBlockchain _ _ => true
  | Event.NewBlockchain _ _ => true
  | Event.NewTx _ _ _ _ _ _ => true
  | Event.NewCoinbaseTx _ _ _ _ => true
  | Event.MineBlock _ _ _ _ => true
  | Event.FindUTXO _ _ _ _ => true
  | Event.Update _ _ _ => true
  | _ => false

/-- The `MineBlock` and `Update` calls of a trace, in the order they were made. -/
def mineAndUpdate (t : List Event) : List Event :=
  t.filter (fun e => e.isMineBlock || e.isUpdate)

/-- The handler that `Run` enters at an event, if it is such an event. -/
def Event.handler : Event → Option Handler
  | Event.Invoke h => some h
  | _ => none

/-- The handlers that `Run` invoked, in order. -/
def invoked (t : List Event) : List Handler := t.filterMap Event.handler

/-- The call of the method of `CLI` that a `Handler` value names. -/
def runHandler {σ W I P : Type} (hoji : Hoji σ W I P) (fuel : Nat) : Handler → σ → Result σ
  | Handler.getBalance address, w => getBalance hoji address w
  | Handler.reindexUTXO, w => reindexUTXO hoji w
  | Handler.createBlockchain address, w => createBlockchain hoji address w
  | Handler.createWallet, w => createWallet hoji w
  | Handler.listAddresses, w => listAddresses hoji w
  | Handler.printChain, w => printChain hoji fuel w
  | Handler.send sender receiver amount, w => send hoji sender receiver amount w

/-- The seven command names and the flag set each one is parsed with. -/
def commandFlagSet (cmd : String) : Option FlagSet :=
  if cmd = "getbalance" then some newCmds.getBalanceCmd
  else if cmd = "createblockchain" then some newCmds.createBlockchainCmd
  else if cmd = "reindexutxo" then some newCmds.reindexUTXOCmd
  else if cmd = "createwallet" then some newCmds.createWalletCmd
  else if cmd = "listaddresses" then some newCmds.listAddressesCmd
  else if cmd = "printchain" then some newCmds.printChainCmd
  else if cmd = "send" then some newCmds.sendCmd
  else none

/-- The handler a command selects once its flags are parsed, when its required flag values are
present: a non-empty `-address` for `getbalance` and `createblockchain`; non-empty `-from` and
`-to` and an `-amount` above zero for `send`. -/
def selectedHandler (cmd : String) (f : FlagSet) : Option Handler :=
  if cmd = "getbalance" then
    if f.stringValue "address" = "" then none
    else some (Handler.getBalance (f.stringValue "address"))
  else if cmd = "createblockchain" then
    if f.stringValue "address" = "" then none
    else some (Handler.createBlockchain (f.stringValue "address"))
  else if cmd = "reindexutxo" then some Handler.reindexUTXO
  else if cmd = "createwallet" then some Handler.createWallet
  else if cmd = "listaddresses" then some Handler.listAddresses
  else if cmd = "printchain" then some Handler.printChain
  else if cmd = "send" then
    if f.stringValue "from" = "" ∨ f.stringValue "to" = "" ∨ f.intValue "amount" ≤ 0 then none
    else some (Handler.send (f.stringValue "from") (f.stringValue "to") (f.intValue "amount"))
  else none

/-- The result of parsing the flags of a command line, when its first argument is one of the
seven command names. -/
def parseOutcome (env : GoEnv) (osArgs : List String) : Option ParseResult :=
  match osArgs with
  | _ :: cmd :: rest =>
    match commandFlagSet cmd with
    | some f => f.Parse env rest
    | none => none
  | _ => none

/-- The handler that a command line calls for: the first argument is a command name, the
flags parse, and the required flag values are present. -/
def expectedHandler (env : GoEnv) (osArgs : List String) : Option Handler :=
  match osArgs, parseOutcome env osArgs with
  | _ :: cmd :: _, some (ParseResult.returned f _) => selectedHandler cmd f
  | _, _ => none

/-- The status and output with which flag parsing leaves the program, when it does. -/
def parseExit (env : GoEnv) (osArgs : List String) : Option (Nat × List Event) :=
  match parseOutcome env osArgs with
  | some (ParseResult.exited code out) => some (code, out)
  | _ => none

/-- The reading of decimal digits, most significant first. -/
def readDigits (acc : Nat) : List Char → Option Nat
  | [] => some acc
  | c :: cs => if c.isDigit then readDigits (acc * 10 + (c.toNat - 48)) cs else none

/-- A Go runtime for the small ledger: help exits with 0, and integers are read as plain
decimal numerals with an optional minus sign.  This agrees with `strconv.ParseInt(s, 0, 64)` on
numerals without a leading zero that fit in 64 bits, and on text that holds no digit at all; it
is not a model of the other forms Go reads (a plus sign, base prefixes, underscores) nor of
the range check, and it is used on inputs of the first kind only. -/
def demoEnv : GoEnv :=
  { ParseInt := fun s =>
      match s.toList with
      | [] => none
      | '-' :: c :: cs => (readDigits 0 (c :: cs)).map (fun n => - (n : Int))
      | cs => (readDigits 0 cs).map (fun n => (n : Int)),
    helpStatus := 0 }

/-- The first word of a line of text. -/
def firstWord (line : String) : String :=
  String.mk ((line.toList.dropWhile (fun c => c == ' ')).takeWhile (fun c => c != ' '))

/-- The command names listed by `printUsage`: the first word of every indented line. -/
def usageCommands : List String :=
  printUsage.filterMap fun e =>
    match e with
    | Event.Println [line] =>
      match line.toList with
      | ' ' :: _ => some (firstWord line)
      | _ => none
    | _ => none

/-- Whether a transaction pointer holds a coinbase transaction. -/
def isCoinbasePtr : Ptr Transaction → Bool
  | some tx => tx.IsCoinbase
  | none => false

/-- The reading of "exactly one coinbase transaction, and it is first" on a `MineBlock` call;
other events satisfy it trivially. -/
def coinbaseOnceAndFirst : Event → Bool
  | Event.MineBlock _ txs _ _ =>
    (txs.filter isCoinbasePtr).length == 1 && (txs.head?.map isCoinbasePtr) == some true
  | _ => true

/-- The transactions mined on the small ledger for a payment of 5 from `Addr1` to `Addr2`. -/
def demoTxs : List (Ptr Transaction) :=
  [some (demoPayment "Addr1" "Addr2" 5 10), some (demoCoinbase "Addr1" "reward tx")]

/-- The genesis block of `demoFunded`. -/
def demoGenesis : Block := demoBlock [] [demoCoinbase "Addr1" "genesis"]

/-- The block mined for the payment of 5, as a value. -/
def demoTip : Block := demoBlock demoFunded.chain (demoTxs.filterMap id)

/-- The world after `send -from Addr1 -to Addr2 -amount 5` on `demoFunded`. -/
def demoSent : DemoWorld := (send demoHoji "Addr1" "Addr2" 5 demoFunded).2.2

/-- A world in which `Addr1` owns two unspent outputs of 2^62 each. -/
def demoRich : DemoWorld :=
  { demoFunded with
    utxo := [{ Value := 2 ^ 62, PubKeyHash := demoLock "Addr1" },
             { Value := 2 ^ 62, PubKeyHash := demoLock "Addr1" }] }

/-- The block mined from `demoTxs` on top of `demoFunded`. -/
def demoMined : Ptr Block :=
  some (demoBlock demoFunded.chain (demoTxs.filterMap id))

/-! ## Theorems -/

section Theorems

variable {σ W I P : Type} (hoji : Hoji σ W I P)

/-- The five ways the body of `send` can run: which call failed, if any. -/
theorem sendBody_cases (bc : Blockchain) (sender receiver : String) (amount : Int) (w : σ) :
    (∃ tx err, (sendBody hoji bc sender receiver amount w).1 = Outcome.panic err ∧
      (sendBody hoji bc sender receiver amount w).2.1 =
        [Event.NewTx bc sender receiver amount tx (some err)]) ∨
    (∃ tx cb err, (sendBody hoji bc sender receiver amount w).1 = Outcome.panic err ∧
      (sendBody hoji bc sender receiver amount w).2.1 =
        [Event.NewTx bc sender receiver amount tx none,
         Event.NewCoinbaseTx sender "reward tx" cb (some err)]) ∨
    (∃ tx cb b err, (sendBody hoji bc sender receiver amount w).1 = Outcome.panic err ∧
      (sendBody hoji bc sender receiver amount w).2.1 =
        [Event.NewTx bc sender receiver amount tx none,
         Event.NewCoinbaseTx sender "reward tx" cb none,
         Event.MineBlock bc [tx, cb] b (some err)]) ∨
    (∃ tx cb b err, (sendBody hoji bc sender receiver amount w).1 = Outcome.panic err ∧
      (sendBody hoji bc sender receiver amount w).2.1 =
        [Event.NewTx bc sender receiver amount tx none,
         Event.NewCoinbaseTx sender "reward tx" cb none,
         Event.MineBlock bc [tx, cb] b none,
         Event.Update { Bc := some bc } b (some err)]) ∨
    (∃ tx cb b, (sendBody hoji bc sender receiver amount w).1 = Outcome.returned ∧
      (sendBody hoji bc sender receiver amount w).2.1 =
        [Event.NewTx bc sender receiver amount tx none,
         Event.NewCoinbaseTx sender "reward tx" cb none,
         Event.MineBlock bc [tx, cb] b none,
         Event.Update { Bc := some bc } b none,
         Event.Println ["money sent!"]]) := by
  rcases h1 : hoji.NewTx bc sender receiver amount w with ⟨⟨tx, _ | e1⟩, w1⟩
  · rcases h2 : hoji.NewCoinbaseTx sender "reward tx" w1 with ⟨⟨cb, _ | e2⟩, w2⟩
    · rcases h3 : hoji.MineBlock bc [tx, cb] w2 with ⟨⟨b, _ | e3⟩, w3⟩
      · rcases h4 : hoji.Update { Bc := some bc } b w3 with ⟨_ | e4, w4⟩
        · right; right; right; right
          exact ⟨tx, cb, b, by simp [sendBody, h1, h2, h3, h4]⟩
        · right; right; right; left
          exact ⟨tx, cb, b, e4, by simp [sendBody, h1, h2, h3, h4, logPanic]⟩
      · right; right; left
        exact ⟨tx, cb, b, e3, by simp [sendBody, h1, h2, h3, logPanic]⟩
    · right; left
      exact ⟨tx, cb, e2, by simp [sendBody, h1, h2, logPanic]⟩
  · left
    exact ⟨tx, e1, by simp [sendBody, h1, logPanic]⟩

/-- The ways `send` can run: rejected address, nil chain handle, or the body between the
opening of the chain and the deferred `Close`. -/
theorem send_cases (sender receiver : String) (amount : Int) (w : σ) :
    (send hoji sender receiver amount w).2.1 = [Event.ValidateAddress sender false] ∨
    (send hoji sender receiver amount w).2.1 =
      [Event.ValidateAddress sender true, Event.ValidateAddress receiver false] ∨
    (∃ err, (send hoji sender receiver amount w).2.1 =
      [Event.ValidateAddress sender true, Event.ValidateAddress receiver true,
       Event.NewBlockchain none err]) ∨
    (∃ bc err w1, (send hoji sender receiver amount w).2.1 =
      [Event.ValidateAddress sender true, Event.ValidateAddress receiver true,
       Event.NewBlockchain (some bc) err] ++
       (sendBody hoji bc sender receiver amount w1).2.1 ++ [Event.Close bc.DB]) := by
  by_cases hs : hoji.ValidateAddress sender = true
  · by_cases hr : hoji.ValidateAddress receiver = true
    · rcases h0 : hoji.NewBlockchain w with ⟨⟨_ | bc, err⟩, w1⟩
      · right; right; left
        exact ⟨err, by simp [send, hs, hr, h0]⟩
      · right; right; right
        exact ⟨bc, err, w1, by simp [send, hs, hr, h0]⟩
    · right; left
      simp at hr
      simp [send, hs, hr]
  · left
    simp at hs
    simp [send, hs]

/-- C3: in every run of `send`, `UTXOSet.Update` is called at most once; when `MineBlock`
succeeded the only `MineBlock` and `Update` calls are that `MineBlock` followed by one `Update`
of the block it returned; when `MineBlock` failed there is no `Update`; and without a
`MineBlock` call there is no `Update` either. -/
theorem send_update_once (sender receiver : String) (amount : Int) (w : σ) :
    ((send hoji sender receiver amount w).2.1.filter Event.isUpdate).length ≤ 1 ∧
    (∀ bc txs b, Event.MineBlock bc txs b none ∈ (send hoji sender receiver amount w).2.1 →
      ∃ r, mineAndUpdate (send hoji sender receiver amount w).2.1 =
        [Event.MineBlock bc txs b none, Event.Update { Bc := some bc } b r]) ∧
    (∀ bc txs b err,
      Event.MineBlock bc txs b (some err) ∈ (send hoji sender receiver amount w).2.1 →
      mineAndUpdate (send hoji sender receiver amount w).2.1 =
        [Event.MineBlock bc txs b (some err)]) ∧
    ((send hoji sender receiver amount w).2.1.all (fun e => !e.isMineBlock) = true →
      (send hoji sender receiver amount w).2.1.all (fun e => !e.isUpdate) = true) := by
  rcases send_cases hoji sender receiver amount w with h | h | ⟨err, h⟩ | ⟨bc, err, w1, h⟩
  · simp [h, mineAndUpdate, Event.isUpdate, Event.isMineBlock]
  · simp [h, mineAndUpdate, Event.isUpdate, Event.isMineBlock]
  · simp [h, mineAndUpdate, Event.isUpdate, Event.isMineBlock]
  · rw [h]
    rcases sendBody_cases hoji bc sender receiver amount w1 with
      ⟨tx, e, -, hb⟩ | ⟨tx, cb, e, -, hb⟩ | ⟨tx, cb, b, e, -, hb⟩ | ⟨tx, cb, b, e, -, hb⟩ |
      ⟨tx, cb, b, -, hb⟩
    all_goals rw [hb]
    all_goals simp [mineAndUpdate, Event.isUpdate, Event.isMineBlock]
    all_goals (intros; subst_vars; simp)

/-- Witness of C3 on the small ledger: a payment of 5 mines one block and updates once. -/
theorem send_update_once_witness :
    ∃ r, mineAndUpdate (send demoHoji "Addr1" "Addr2" 5 demoFunded).2.1 =
      [Event.MineBlock { DB := 1 } demoTxs demoMined none,
       Event.Update { Bc := some { DB := 1 } } demoMined r] :=
  (send_update_once demoHoji "Addr1" "Addr2" 5 demoFunded).2.1 { DB := 1 } demoTxs demoMined
    (by decide)

/-- C4 : whenever `send` calls `MineBlock`, the sequence it passes has exactly two elements,
the transaction returned by `NewTx(from, to, amount)` and the transaction returned by
`NewCoinbaseTx`; `NewCoinbaseTx` is called once, and its recipient argument is `from`. -/
theorem send_mines_payment_and_reward (sender receiver : String) (amount : Int) (w : σ)
    (bc : Blockchain) (txs : List (Ptr Transaction)) (b : Ptr Block) (err : GoError)
    (h : Event.MineBlock bc txs b err ∈ (send hoji sender receiver amount w).2.1) :
    ∃ tx cb, txs = [tx, cb] ∧
      Event.NewTx bc sender receiver amount tx none ∈ (send hoji sender receiver amount w).2.1 ∧
      (send hoji sender receiver amount w).2.1.filter Event.isNewCoinbaseTx =
        [Event.NewCoinbaseTx sender "reward tx" cb none] := by
  rcases send_cases hoji sender receiver amount w with h0 | h0 | ⟨e0, h0⟩ | ⟨bc0, e0, w1, h0⟩
  · simp [h0] at h
  · simp [h0] at h
  · simp [h0] at h
  · rw [h0] at h ⊢
    rcases sendBody_cases hoji bc0 sender receiver amount w1 with
      ⟨tx, e, -, hb⟩ | ⟨tx, cb, e, -, hb⟩ | ⟨tx, cb, b1, e, -, hb⟩ | ⟨tx, cb, b1, e, -, hb⟩ |
      ⟨tx, cb, b1, -, hb⟩
    all_goals rw [hb] at h ⊢
    all_goals simp at h
    all_goals obtain ⟨rfl, rfl, rfl, rfl⟩ := h
    all_goals exact ⟨tx, cb, rfl, by simp, by simp [Event.isNewCoinbaseTx]⟩

/-- Witness of C4 on the small ledger: the block mined for a payment of 5 from `Addr1` holds
the payment and a reward for `Addr1`. -/
theorem send_mines_payment_and_reward_witness :
    ∃ tx cb, demoTxs = [tx, cb] ∧
      Event.NewTx { DB := 1 } "Addr1" "Addr2" 5 tx none ∈
        (send demoHoji "Addr1" "Addr2" 5 demoFunded).2.1 ∧
      (send demoHoji "Addr1" "Addr2" 5 demoFunded).2.1.filter Event.isNewCoinbaseTx =
        [Event.NewCoinbaseTx "Addr1" "reward tx" cb none] :=
  send_mines_payment_and_reward demoHoji "Addr1" "Addr2" 5 demoFunded { DB := 1 } demoTxs
    demoMined none (by decide)

/-- A `MineBlock` call in the body of `send` receives the transaction that the `NewTx` call
returned followed by the transaction that the `NewCoinbaseTx` call returned. -/
theorem sendBody_mined (bc : Blockchain) (sender receiver : String) (amount : Int) (w : σ)
    (bc0 : Blockchain) (txs : List (Ptr Transaction)) (b : Ptr Block) (err : GoError)
    (h : Event.MineBlock bc0 txs b err ∈ (sendBody hoji bc sender receiver amount w).2.1) :
    ∃ tx cb w1 w2,
      hoji.NewTx bc sender receiver amount w = ((tx, none), w1) ∧
      hoji.NewCoinbaseTx sender "reward tx" w1 = ((cb, none), w2) ∧
      bc0 = bc ∧ txs = [tx, cb] ∧
      Event.NewTx bc sender receiver amount tx none ∈
        (sendBody hoji bc sender receiver amount w).2.1 ∧
      Event.NewCoinbaseTx sender "reward tx" cb none ∈
        (sendBody hoji bc sender receiver amount w).2.1 := by
  rcases h1 : hoji.NewTx bc sender receiver amount w with ⟨⟨tx, _ | e1⟩, w1⟩
  · rcases h2 : hoji.NewCoinbaseTx sender "reward tx" w1 with ⟨⟨cb, _ | e2⟩, w2⟩
    · rcases h3 : hoji.MineBlock bc [tx, cb] w2 with ⟨⟨b1, _ | e3⟩, w3⟩
      · rcases h4 : hoji.Update { Bc := some bc } b1 w3 with ⟨_ | e4, w4⟩
        · simp [sendBody, h1, h2, h3, h4] at h
          obtain ⟨rfl, rfl, -, -⟩ := h
          exact ⟨tx, cb, w1, w2, rfl, h2, rfl, rfl, by simp [sendBody, h1, h2, h3, h4],
            by simp [sendBody, h1, h2, h3, h4]⟩
        · simp [sendBody, h1, h2, h3, h4] at h
          obtain ⟨rfl, rfl, -, -⟩ := h
          exact ⟨tx, cb, w1, w2, rfl, h2, rfl, rfl, by simp [sendBody, h1, h2, h3, h4],
            by simp [sendBody, h1, h2, h3, h4]⟩
      · simp [sendBody, h1, h2, h3] at h
        obtain ⟨rfl, rfl, -, -⟩ := h
        exact ⟨tx, cb, w1, w2, rfl, h2, rfl, rfl, by simp [sendBody, h1, h2, h3],
          by simp [sendBody, h1, h2, h3]⟩
    · simp [sendBody, h1, h2] at h
  · simp [sendBody, h1] at h

/-- C1, as amended: whenever `send` calls `MineBlock`, the sequence it passes is exactly the
transaction returned by its `NewTx` call followed by the transaction returned by its
`NewCoinbaseTx` call, which is therefore the second and last element, the payment being the
first.  With a package whose `NewTx` returns no coinbase and whose `NewCoinbaseTx` returns a
coinbase, the sequence holds exactly one coinbase transaction, at the last place and not at
the first. -/
theorem send_coinbase_last (sender receiver : String) (amount : Int) (w : σ)
    (bc : Blockchain) (txs : List (Ptr Transaction)) (b : Ptr Block) (err : GoError)
    (h : Event.MineBlock bc txs b err ∈ (send hoji sender receiver amount w).2.1) :
    ∃ tx cb w1 w2 w3,
      hoji.NewTx bc sender receiver amount w1 = ((tx, none), w2) ∧
      hoji.NewCoinbaseTx sender "reward tx" w2 = ((cb, none), w3) ∧
      Event.NewTx bc sender receiver amount tx none ∈
        (send hoji sender receiver amount w).2.1 ∧
      Event.NewCoinbaseTx sender "reward tx" cb none ∈
        (send hoji sender receiver amount w).2.1 ∧
      txs = [tx, cb] ∧ txs.head? = some tx ∧ txs.get? 1 = some cb ∧ txs.getLast? = some cb ∧
      ((∀ bc1 s r a v v1 t, hoji.NewTx bc1 s r a v = ((t, none), v1) → isCoinbasePtr t = false) →
       (∀ r d v v1 t, hoji.NewCoinbaseTx r d v = ((t, none), v1) → isCoinbasePtr t = true) →
        isCoinbasePtr tx = false ∧ isCoinbasePtr cb = true ∧
        txs.filter isCoinbasePtr = [cb] ∧ txs.map isCoinbasePtr = [false, true] ∧
        (txs.head?.map isCoinbasePtr) = some false) := by
  rcases send_cases hoji sender receiver amount w with h0 | h0 | ⟨e0, h0⟩ | ⟨bc0, e0, w1, h0⟩
  · simp [h0] at h
  · simp [h0] at h
  · simp [h0] at h
  · rw [h0] at h ⊢
    have hb : Event.MineBlock bc txs b err ∈ (sendBody hoji bc0 sender receiver amount w1).2.1 := by
      simpa using h
    obtain ⟨tx, cb, w2, w3, htx, hcb, rfl, rfl, hm1, hm2⟩ :=
      sendBody_mined hoji bc0 sender receiver amount w1 bc txs b err hb
    refine ⟨tx, cb, w1, w2, w3, htx, hcb, by simp [hm1], by simp [hm2], rfl, rfl, rfl, rfl,
      fun hpay hreward => ?_⟩
    have h1 : isCoinbasePtr tx = false := hpay _ _ _ _ _ _ _ htx
    have h2 : isCoinbasePtr cb = true := hreward _ _ _ _ _ hcb
    simp [List.filter, h1, h2]

/-- The payment transactions of the small ledger are no coinbase transactions. -/
theorem demoHoji_payment (bc1 : Blockchain) (s r : String) (a : Int) (v v1 : DemoWorld)
    (t : Ptr Transaction) (h : demoHoji.NewTx bc1 s r a v = ((t, none), v1)) :
    isCoinbasePtr t = false := by
  simp only [demoHoji] at h
  split at h
  · simp at h
  · simp only [Prod.mk.injEq, and_true] at h
    rw [← h.1]
    simp [isCoinbasePtr, Transaction.IsCoinbase, demoPayment]

/-- The reward transactions of the small ledger are coinbase transactions. -/
theorem demoHoji_reward (r d : String) (v v1 : DemoWorld) (t : Ptr Transaction)
    (h : demoHoji.NewCoinbaseTx r d v = ((t, none), v1)) : isCoinbasePtr t = true := by
  simp only [demoHoji, Prod.mk.injEq, and_true] at h
  rw [← h.1]
  simp [isCoinbasePtr, Transaction.IsCoinbase, demoCoinbase]

/-- Witness of C1 as amended, on the small ledger: the block mined for a payment of 5 from
`Addr1` holds the payment first and the reward last, and the reward is its only coinbase. -/
theorem send_coinbase_last_witness :
    demoTxs = [some (demoPayment "Addr1" "Addr2" 5 10),
      some (demoCoinbase "Addr1" "reward tx")] ∧
    demoTxs.filter isCoinbasePtr = [some (demoCoinbase "Addr1" "reward tx")] ∧
    demoTxs.map isCoinbasePtr = [false, true] ∧
    Event.NewCoinbaseTx "Addr1" "reward tx" (some (demoCoinbase "Addr1" "reward tx")) none ∈
      (send demoHoji "Addr1" "Addr2" 5 demoFunded).2.1 := by
  obtain ⟨tx, cb, w1, w2, w3, -, -, -, hm, htxs, -, -, -, hcount⟩ :=
    send_coinbase_last demoHoji "Addr1" "Addr2" 5 demoFunded { DB := 1 } demoTxs demoMined none
      (by decide)
  obtain ⟨-, -, hf, hmap, -⟩ := hcount demoHoji_payment demoHoji_reward
  have hcb : cb = some (demoCoinbase "Addr1" "reward tx") := by
    have h2 : demoTxs.get? 1 = [tx, cb].get? 1 := by rw [htxs]
    simpa [demoTxs] using h2.symm
  rw [hcb] at hf hm
  exact ⟨rfl, hf, hmap, hm⟩

/-- C1 as stated fails: in the run of `send` for a payment of 5 from `Addr1` to `Addr2` the
sequence passed to `MineBlock` does not start with a coinbase transaction. -/
theorem send_coinbase_not_first :
    ¬ ∀ e ∈ (send demoHoji "Addr1" "Addr2" 5 demoFunded).2.1, coinbaseOnceAndFirst e = true := by
  decide

/-- C2: when `NewTx` returns an error, `send` panics with that error after the calls
`ValidateAddress`, `ValidateAddress`, `NewBlockchain`, `NewTx` and the deferred `Close` only;
`NewCoinbaseTx`, `MineBlock` and `Update` are not called, and whatever part of the world the
opening, the failed `NewTx` and the closing leave alone is unchanged. -/
theorem send_payment_error (sender receiver : String) (amount : Int) (w w1 w2 : σ)
    (bc : Blockchain) (e0 : GoError) (tx : Ptr Transaction) (err : String)
    (hs : hoji.ValidateAddress sender = true) (hr : hoji.ValidateAddress receiver = true)
    (hopen : hoji.NewBlockchain w = ((some bc, e0), w1))
    (htx : hoji.NewTx bc sender receiver amount w1 = ((tx, some err), w2)) :
    (send hoji sender receiver amount w).1 = Outcome.panic err ∧
    (send hoji sender receiver amount w).2.1 =
      [Event.ValidateAddress sender true, Event.ValidateAddress receiver true,
       Event.NewBlockchain (some bc) e0, Event.NewTx bc sender receiver amount tx (some err),
       Event.Close bc.DB] ∧
    (send hoji sender receiver amount w).2.1.all
      (fun e => !e.isNewCoinbaseTx && !e.isMineBlock && !e.isUpdate) = true ∧
    (send hoji sender receiver amount w).2.2 = hoji.Close bc.DB w2 ∧
    ∀ {α : Type} (obs : σ → α), obs w1 = obs w → obs w2 = obs w1 →
      obs (hoji.Close bc.DB w2) = obs w2 →
      obs (send hoji sender receiver amount w).2.2 = obs w := by
  have hres : send hoji sender receiver amount w =
      (Outcome.panic err,
        [Event.ValidateAddress sender true, Event.ValidateAddress receiver true,
         Event.NewBlockchain (some bc) e0, Event.NewTx bc sender receiver amount tx (some err),
         Event.Close bc.DB], hoji.Close bc.DB w2) := by
    simp [send, sendBody, hs, hr, hopen, htx, logPanic]
  rw [hres]
  refine ⟨rfl, rfl, by simp [Event.isNewCoinbaseTx, Event.isMineBlock, Event.isUpdate], rfl, ?_⟩
  intro α obs h1 h2 h3
  simp only [h3, h2, h1]

/-- Witness of C2 on the small ledger: `Addr1` owns 10 and tries to send 50. -/
theorem send_payment_error_witness :
    (send demoHoji "Addr1" "Addr2" 50 demoFunded).1 = Outcome.panic "not enough funds" ∧
    (send demoHoji "Addr1" "Addr2" 50 demoFunded).2.2.chain = demoFunded.chain ∧
    (send demoHoji "Addr1" "Addr2" 50 demoFunded).2.2.utxo = demoFunded.utxo :=
  have h := send_payment_error demoHoji "Addr1" "Addr2" 50 demoFunded demoFunded demoFunded
    { DB := 1 } none none "not enough funds" (by decide) (by decide) (by decide) (by decide)
  ⟨h.1, h.2.2.2.2 (fun w => w.chain) rfl rfl rfl, h.2.2.2.2 (fun w => w.utxo) rfl rfl rfl⟩

/-- C6: with an address that `ValidateAddress` rejects, `createBlockchain`, `getBalance` and
`send` panic with their "address is not valid" message having made no call but
`ValidateAddress` and leaving the world as it was; and a chain operation appears in the trace
of a command only when every address given to it validates. -/
theorem invalid_address_rejected (address sender receiver : String) (amount : Int) (w : σ) :
    (hoji.ValidateAddress address = false →
      createBlockchain hoji address w =
        (Outcome.panic "ERROR: Address is not valid",
          [Event.ValidateAddress address false], w) ∧
      getBalance hoji address w =
        (Outcome.panic "ERROR: Address is not valid",
          [Event.ValidateAddress address false], w)) ∧
    (hoji.ValidateAddress sender = false →
      send hoji sender receiver amount w =
        (Outcome.panic "ERROR: from address is not valid",
          [Event.ValidateAddress sender false], w)) ∧
    (hoji.ValidateAddress sender = true → hoji.ValidateAddress receiver = false →
      send hoji sender receiver amount w =
        (Outcome.panic "ERROR: to address is not valid",
          [Event.ValidateAddress sender true, Event.ValidateAddress receiver false], w)) ∧
    ((createBlockchain hoji address w).2.1.any Event.isChainOp = true →
      hoji.ValidateAddress address = true) ∧
    ((getBalance hoji address w).2.1.any Event.isChainOp = true →
      hoji.ValidateAddress address = true) ∧
    ((send hoji sender receiver amount w).2.1.any Event.isChainOp = true →
      hoji.ValidateAddress sender = true ∧ hoji.ValidateAddress receiver = true) := by
  refine ⟨fun h => ?_, fun h => ?_, fun h1 h2 => ?_, fun h => ?_, fun h => ?_, fun h => ?_⟩
  · simp [createBlockchain, getBalance, h, logPanic]
  · simp [send, h, logPanic]
  · simp [send, h1, h2, logPanic]
  · by_contra hv
    simp at hv
    simp [createBlockchain, hv, Event.isChainOp] at h
  · by_contra hv
    simp at hv
    simp [getBalance, hv, Event.isChainOp] at h
  · by_cases hs : hoji.ValidateAddress sender = true
    · by_cases hr : hoji.ValidateAddress receiver = true
      · exact ⟨hs, hr⟩
      · simp at hr
        simp [send, hs, hr, Event.isChainOp] at h
    · simp at hs
      simp [send, hs, Event.isChainOp] at h

/-- Witness of C6 on the small ledger: `nobody` is not an address. -/
theorem invalid_address_rejected_witness :
    createBlockchain demoHoji "nobody" demoEmpty =
      (Outcome.panic "ERROR: Address is not valid",
        [Event.ValidateAddress "nobody" false], demoEmpty) ∧
    send demoHoji "Addr1" "nobody" 3 demoFunded =
      (Outcome.panic "ERROR: to address is not valid",
        [Event.ValidateAddress "Addr1" true, Event.ValidateAddress "nobody" false],
        demoFunded) :=
  have h := invalid_address_rejected demoHoji "nobody" "Addr1" "nobody" 3 demoEmpty
  have h2 := invalid_address_rejected demoHoji "nobody" "Addr1" "nobody" 3 demoFunded
  ⟨(h.1 (by decide)).1, h2.2.2.1 (by decide) (by decide)⟩

/-- The loop of `printChain` on a chain of `front.length + 1` blocks ending in the genesis
block. -/
theorem printChainLoop_chain (bci : I) (genesis : Block) (hgen : genesis.PrevBlockHash = []) :
    ∀ (front : List Block) (fuel : Nat) (w : σ),
      (nextBlocks hoji bci (front.length + 1) w).1 = (front ++ [genesis]).map some →
      (∀ b ∈ front, b.PrevBlockHash ≠ []) → front.length + 1 ≤ fuel →
      printChainLoop hoji bci fuel w =
        (Outcome.returned, (front ++ [genesis]).flatMap (blockEvents hoji),
          (nextBlocks hoji bci (front.length + 1) w).2) := by
  intro front
  induction front with
  | nil =>
    intro fuel w hch _ hfuel
    obtain ⟨k, rfl⟩ : ∃ k, fuel = k + 1 := ⟨fuel - 1, by simp at hfuel; omega⟩
    rcases hn : hoji.Next bci w with ⟨b, w1⟩
    simp [nextBlocks, hn] at hch
    subst hch
    simp [printChainLoop, nextBlocks, hn, hgen]
  | cons b rest ih =>
    intro fuel w hch hfront hfuel
    obtain ⟨k, rfl⟩ : ∃ k, fuel = k + 1 := ⟨fuel - 1, by simp at hfuel; omega⟩
    rcases hn : hoji.Next bci w with ⟨b0, w1⟩
    rw [nextBlocks, hn] at hch
    simp at hch
    obtain ⟨rfl, hrest⟩ := hch
    have hb : b.PrevBlockHash ≠ [] := hfront b (by simp)
    have ih1 := ih k w1 (by simpa using hrest) (fun x hx => hfront x (by simp [hx]))
      (by simp at hfuel ⊢; omega)
    rw [printChainLoop, hn]
    simp [hb, ih1, nextBlocks, hn]

/-- The `Next` calls among the events printed for a list of blocks. -/
theorem filter_isNext_blockEvents (l : List Block) :
    (l.flatMap (blockEvents hoji)).filter Event.isNext = l.map (fun b => Event.Next (some b)) := by
  induction l with
  | nil => rfl
  | cons b rest ih =>
    simp only [List.flatMap_cons, List.filter_append, ih, List.map_cons]
    simp [blockEvents, Event.isNext, List.filter]

/-- The proof-of-work results among the events printed for a list of blocks. -/
theorem filterMap_powLine_blockEvents (l : List Block) :
    (l.flatMap (blockEvents hoji)).filterMap Event.powLine =
      l.map (fun b => hoji.Validate (hoji.NewPOW b)) := by
  induction l with
  | nil => rfl
  | cons b rest ih =>
    simp only [List.flatMap_cons, List.filterMap_append, ih, List.map_cons]
    cases hv : hoji.Validate (hoji.NewPOW b) <;>
      simp [blockEvents, Event.powLine, FormatBool, hv]

/-- The hashes among the events printed for a list of blocks. -/
theorem filterMap_hashLine_blockEvents (l : List Block) :
    (l.flatMap (blockEvents hoji)).filterMap Event.hashLine = l.map (fun b => b.Hash) := by
  induction l with
  | nil => rfl
  | cons b rest ih =>
    simp only [List.flatMap_cons, List.filterMap_append, ih, List.map_cons]
    simp [blockEvents, Event.hashLine]

/-- C8: on a chain whose backward iteration yields the blocks `front` and then the genesis
block, the only one with an empty previous hash, `printChain` returns as soon as its bound
reaches the number of blocks.  Between opening the chain and the deferred `Close` it does, for
every block from the tip to the genesis block and once each: call `Next`, print the previous
hash, print the hash, print the result of the proof-of-work validation of that block, and print
an empty line.  It calls `Next` once per block and not again after the genesis block. -/
theorem printChain_prints_chain (fuel : Nat) (w w1 w2 : σ) (bc : Blockchain) (e0 : GoError)
    (bci : I) (front : List Block) (genesis : Block)
    (hopen : hoji.NewBlockchain w = ((some bc, e0), w1))
    (hiter : hoji.Iterator bc w1 = (bci, w2))
    (hchain : (nextBlocks hoji bci (front.length + 1) w2).1 = (front ++ [genesis]).map some)
    (hfront : ∀ b ∈ front, b.PrevBlockHash ≠ [])
    (hgen : genesis.PrevBlockHash = [])
    (hfuel : front.length + 1 ≤ fuel) :
    printChain hoji fuel w =
      (Outcome.returned,
        [Event.NewBlockchain (some bc) e0, Event.Iterator bc] ++
          (front ++ [genesis]).flatMap (fun block =>
            [Event.Next (some block),
             Event.Printf "Prev. hash: %x\n" [Arg.bytes block.PrevBlockHash],
             Event.Printf "Hash: %x\n" [Arg.bytes block.Hash],
             Event.Printf "PoW: %s\n"
               [Arg.str (if hoji.Validate (hoji.NewPOW block) = true then "true" else "false")],
             Event.Println []]) ++
          [Event.Close bc.DB],
        hoji.Close bc.DB (nextBlocks hoji bci (front.length + 1) w2).2) ∧
    (printChain hoji fuel w).2.1.filter Event.isNext =
      (front ++ [genesis]).map (fun b => Event.Next (some b)) ∧
    ((printChain hoji fuel w).2.1.filter Event.isNext).length = front.length + 1 ∧
    (printChain hoji fuel w).2.1.filterMap Event.powLine =
      (front ++ [genesis]).map (fun b => hoji.Validate (hoji.NewPOW b)) ∧
    (printChain hoji fuel w).2.1.filterMap Event.hashLine =
      (front ++ [genesis]).map (fun b => b.Hash) := by
  have hloop := printChainLoop_chain hoji bci genesis hgen front fuel w2 hchain hfront hfuel
  have hfun : (fun block =>
      [Event.Next (some block),
       Event.Printf "Prev. hash: %x\n" [Arg.bytes block.PrevBlockHash],
       Event.Printf "Hash: %x\n" [Arg.bytes block.Hash],
       Event.Printf "PoW: %s\n"
         [Arg.str (if hoji.Validate (hoji.NewPOW block) = true then "true" else "false")],
       Event.Println []]) = blockEvents hoji := by
    funext block
    simp [blockEvents, FormatBool]
  have hres : printChain hoji fuel w =
      (Outcome.returned,
        [Event.NewBlockchain (some bc) e0, Event.Iterator bc] ++
          (front ++ [genesis]).flatMap (blockEvents hoji) ++ [Event.Close bc.DB],
        hoji.Close bc.DB (nextBlocks hoji bci (front.length + 1) w2).2) := by
    simp [printChain, hopen, hiter, hloop]
  have hnext : (printChain hoji fuel w).2.1.filter Event.isNext =
      (front ++ [genesis]).map (fun b => Event.Next (some b)) := by
    rw [hres]
    simp only [List.filter_append, filter_isNext_blockEvents]
    simp [Event.isNext, List.filter]
  have hpow : (printChain hoji fuel w).2.1.filterMap Event.powLine =
      (front ++ [genesis]).map (fun b => hoji.Validate (hoji.NewPOW b)) := by
    rw [hres]
    simp only [List.filterMap_append, filterMap_powLine_blockEvents]
    simp [Event.powLine]
  have hhash : (printChain hoji fuel w).2.1.filterMap Event.hashLine =
      (front ++ [genesis]).map (fun b => b.Hash) := by
    rw [hres]
    simp only [List.filterMap_append, filterMap_hashLine_blockEvents]
    simp [Event.hashLine]
  refine ⟨?_, hnext, ?_, hpow, hhash⟩
  · rw [hfun]
    exact hres
  · rw [hnext]
    simp

/-- Witness of C8 on the small ledger: the chain after one payment has two blocks, printed
from the tip with hash 2 to the genesis block with hash 1. -/
theorem printChain_prints_chain_witness :
    printChain demoHoji 2 demoSent =
      (Outcome.returned,
        [Event.NewBlockchain (some { DB := 1 }) none, Event.Iterator { DB := 1 },
         Event.Next (some demoTip),
         Event.Printf "Prev. hash: %x\n" [Arg.bytes [1]],
         Event.Printf "Hash: %x\n" [Arg.bytes [2]],
         Event.Printf "PoW: %s\n" [Arg.str "true"],
         Event.Println [],
         Event.Next (some demoGenesis),
         Event.Printf "Prev. hash: %x\n" [Arg.bytes []],
         Event.Printf "Hash: %x\n" [Arg.bytes [1]],
         Event.Printf "PoW: %s\n" [Arg.str "true"],
         Event.Println [],
         Event.Close 1],
        { demoSent with cursor := [] }) ∧
    ((printChain demoHoji 2 demoSent).2.1.filter Event.isNext).length = 2 :=
  have h := printChain_prints_chain demoHoji 2 demoSent demoSent
    { demoSent with cursor := demoSent.chain } { DB := 1 } none () [demoTip] demoGenesis
    (by decide) (by decide) (by decide) (by decide) (by decide) (by decide)
  ⟨h.1.trans (by decide), h.2.2.1⟩

/-- A flag seen by `parseOne` consumes at least one argument and leaves the name and the
`parsed` mark of the flag set alone. -/
theorem FlagSet.parseOne_seen (env : GoEnv) (f f1 : FlagSet)
    (h : f.parseOne env = ParseStep.seen f1) :
    f1.args.length < f.args.length ∧ f1.parsed = f.parsed ∧ f1.name = f.name := by
  unfold FlagSet.parseOne at h
  repeat' split at h
  all_goals (try simp_all [FlagSet.set])
  all_goals repeat' split at h
  all_goals (try simp_all [FlagSet.set])
  all_goals (try subst h)
  all_goals (try simp)
  all_goals (try omega)

/-- The end of the flags leaves the name and the `parsed` mark of the flag set alone. -/
theorem FlagSet.parseOne_done (env : GoEnv) (f f1 : FlagSet)
    (h : f.parseOne env = ParseStep.done f1) :
    f1.parsed = f.parsed ∧ f1.name = f.name := by
  unfold FlagSet.parseOne at h
  repeat' split at h
  all_goals (try simp_all [FlagSet.set])
  all_goals repeat' split at h
  all_goals (try simp_all [FlagSet.set])
  all_goals (try subst h)
  all_goals (try simp)

/-- With more passes allowed than there are arguments the loop of `Parse` ends, in a result
of the expected form. -/
theorem FlagSet.parseLoop_total (env : GoEnv) :
    ∀ (fuel : Nat) (f : FlagSet), f.args.length < fuel →
      ∃ r, FlagSet.parseLoop env fuel f = some r ∧ r.wellFormed env f.name f.parsed := by
  intro fuel
  induction fuel with
  | zero => intro f h; omega
  | succ k ih =>
    intro f h
    rcases hstep : f.parseOne env with f1 | f1 | f1 | ⟨f1, e⟩
    · obtain ⟨h1, h2, h3⟩ := FlagSet.parseOne_seen env f f1 hstep
      obtain ⟨r, hr, hw⟩ := ih f1 (by omega)
      exact ⟨r, by simp [FlagSet.parseLoop, hstep, hr], by rw [← h2, ← h3]; exact hw⟩
    · obtain ⟨h2, h3⟩ := FlagSet.parseOne_done env f f1 hstep
      exact ⟨ParseResult.returned f1 none, by simp [FlagSet.parseLoop, hstep],
        by simp [ParseResult.wellFormed, h2, h3]⟩
    · exact ⟨ParseResult.exited env.helpStatus [Event.Usage f.name],
        by simp [FlagSet.parseLoop, hstep], by simp [ParseResult.wellFormed]⟩
    · exact ⟨ParseResult.exited 2 [Event.FlagError e, Event.Usage f.name],
        by simp [FlagSet.parseLoop, hstep], by simp [ParseResult.wellFormed]⟩

/-- The method `Parse` always ends: it returns the flag set marked as parsed, or it exits. -/
theorem FlagSet.Parse_total (env : GoEnv) (f : FlagSet) (arguments : List String) :
    ∃ r, f.Parse env arguments = some r ∧ r.wellFormed env f.name true := by
  have h := FlagSet.parseLoop_total env (arguments.length + 1)
    { f with parsed := true, args := arguments } (by simp)
  simpa [FlagSet.Parse] using h

/-- After a statement that returned, the next statement runs. -/
theorem andThen_returned (t : List Event) (w : σ) (k : σ → Result σ) :
    andThen (Outcome.returned, t, w) k = ((k w).1, t ++ (k w).2.1, (k w).2.2) := by
  simp [andThen]

/-- Statements that do nothing can be dropped from the end of a sequence. -/
theorem andThen_skip (r : Result σ) :
    andThen r (fun w => (Outcome.returned, [], w)) = r := by
  rcases r with ⟨o, t, w⟩
  cases o <;> simp [andThen]

/-- The handlers invoked over two stretches of a trace. -/
theorem invoked_append (a b : List Event) : invoked (a ++ b) = invoked a ++ invoked b := by
  simp [invoked]

/-- The body of `send` enters no handler. -/
theorem invoked_sendBody (bc : Blockchain) (sender receiver : String) (amount : Int) (w : σ) :
    invoked (sendBody hoji bc sender receiver amount w).2.1 = [] := by
  rcases sendBody_cases hoji bc sender receiver amount w with
    ⟨tx, e, -, hb⟩ | ⟨tx, cb, e, -, hb⟩ | ⟨tx, cb, b, e, -, hb⟩ | ⟨tx, cb, b, e, -, hb⟩ |
    ⟨tx, cb, b, -, hb⟩
  all_goals rw [hb]
  all_goals simp [invoked, Event.handler]

/-- The loop of `printChain` enters no handler. -/
theorem invoked_printChainLoop (bci : I) :
    ∀ (fuel : Nat) (w : σ), invoked (printChainLoop hoji bci fuel w).2.1 = [] := by
  intro fuel
  induction fuel with
  | zero => intro w; simp [printChainLoop, invoked]
  | succ k ih =>
    intro w
    rcases hn : hoji.Next bci w with ⟨_ | b, w1⟩
    · simp [printChainLoop, hn, invoked, Event.handler]
    · by_cases hb : b.PrevBlockHash.length = 0
      · simp [printChainLoop, hn, hb, invoked, blockEvents, Event.handler]
      · have := ih w1
        simp [printChainLoop, hn, hb, invoked_append, this]
        simp [invoked, blockEvents, Event.handler]

/-- No handler records an `Invoke` event of its own. -/
theorem invoked_runHandler (fuel : Nat) (h : Handler) (w : σ) :
    invoked (runHandler hoji fuel h w).2.1 = [] := by
  cases h with
  | getBalance address =>
    simp only [runHandler, getBalance, getBalanceBody]
    repeat' split
    all_goals simp [invoked, Event.handler]
  | reindexUTXO =>
    simp only [runHandler, reindexUTXO]
    repeat' split
    all_goals simp [invoked, Event.handler]
  | createBlockchain address =>
    simp only [runHandler, createBlockchain]
    repeat' split
    all_goals simp [invoked, Event.handler]
  | createWallet =>
    simp only [runHandler, createWallet]
    repeat' split
    all_goals simp [invoked, Event.handler]
  | listAddresses =>
    simp only [runHandler, listAddresses]
    repeat' split
    all_goals simp [invoked, Event.handler]
  | printChain =>
    rcases h0 : hoji.NewBlockchain w with ⟨⟨_ | bc, err⟩, w1⟩
    · simp [runHandler, printChain, h0, invoked, Event.handler]
    · rcases h1 : hoji.Iterator bc w1 with ⟨bci, w2⟩
      simp only [runHandler, printChain, h0, h1, invoked_append, invoked_printChainLoop]
      simp [invoked, Event.handler]
  | send sender receiver amount =>
    rcases send_cases hoji sender receiver amount w with h | h | ⟨err, h⟩ | ⟨bc, err, w1, h⟩
    all_goals simp only [runHandler, h, invoked_append, invoked_sendBody]
    all_goals simp [invoked, Event.handler]


/-- A handler call followed by statements that do nothing. -/
theorem invoke_skip (h : Handler) (r : Result σ) :
    andThen (invoke h r) (fun w => (Outcome.returned, [], w)) = invoke h r :=
  andThen_skip _

/-- `Run` on a command line with a command argument: the usage for an unknown command, the
exit of `Parse` when the flags do not parse, and otherwise the selected handler or, when a
required flag value is missing, the usage of the flag set. -/
theorem Run_eq (env : GoEnv) (fuel : Nat) (prog cmd : String) (rest : List String) (w : σ) :
    Run hoji env fuel (prog :: cmd :: rest) w =
      match commandFlagSet cmd with
      | none => (Outcome.exit 1, printUsage, w)
      | some f0 =>
        match f0.Parse env rest with
        | some (ParseResult.exited code out) => (Outcome.exit code, out, w)
        | some (ParseResult.returned f1 _) =>
          (match selectedHandler cmd f1 with
           | some h => invoke h (runHandler hoji fuel h w)
           | none => (Outcome.exit 1, [Event.Usage f0.name], w))
        | none => (Outcome.outOfFuel, [], w) := by
  by_cases h1 : cmd = "getbalance"
  · subst h1
    obtain ⟨r, hr, hw⟩ := FlagSet.Parse_total env newCmds.getBalanceCmd rest
    have hc : commandFlagSet "getbalance" = some newCmds.getBalanceCmd := by decide
    simp only [Run, hc, parseCase, hr, if_true, if_false]
    rcases r with ⟨f1, err⟩ | ⟨code, out⟩
    · obtain ⟨rfl, hp, hn⟩ := hw
      have hname : f1.name = "getbalance" := by rw [hn]; decide
      simp only [runParsed, hp, if_true, hname]
      simp [newCmds, NewFlagSet, FlagSet.define, andThen_returned, invoke_skip, andThen_skip,
        selectedHandler, runHandler]
      split_ifs <;> simp_all [runHandler]
    · rfl
  by_cases h2 : cmd = "createblockchain"
  · subst h2
    obtain ⟨r, hr, hw⟩ := FlagSet.Parse_total env newCmds.createBlockchainCmd rest
    have hc : commandFlagSet "createblockchain" = some newCmds.createBlockchainCmd := by decide
    simp only [Run, hc, parseCase, hr, h1, if_true, if_false]
    rcases r with ⟨f1, err⟩ | ⟨code, out⟩
    · obtain ⟨rfl, hp, hn⟩ := hw
      have hname : f1.name = "createblockchain" := by rw [hn]; decide
      simp only [runParsed, hp, if_true, hname]
      simp [newCmds, NewFlagSet, FlagSet.define, andThen_returned, invoke_skip, andThen_skip,
        selectedHandler, runHandler]
      split_ifs <;> simp_all [runHandler]
    · rfl
  by_cases h3 : cmd = "reindexutxo"
  · subst h3
    obtain ⟨r, hr, hw⟩ := FlagSet.Parse_total env newCmds.reindexUTXOCmd rest
    have hc : commandFlagSet "reindexutxo" = some newCmds.reindexUTXOCmd := by decide
    simp only [Run, hc, parseCase, hr, h1, h2, if_true, if_false]
    rcases r with ⟨f1, err⟩ | ⟨code, out⟩
    · obtain ⟨rfl, hp, hn⟩ := hw
      have hname : f1.name = "reindexutxo" := by rw [hn]; decide
      simp only [runParsed, hp, if_true, hname]
      simp [newCmds, NewFlagSet, FlagSet.define, andThen_returned, invoke_skip, andThen_skip,
        selectedHandler, runHandler]
    · rfl
  by_cases h4 : cmd = "createwallet"
  · subst h4
    obtain ⟨r, hr, hw⟩ := FlagSet.Parse_total env newCmds.createWalletCmd rest
    have hc : commandFlagSet "createwallet" = some newCmds.createWalletCmd := by decide
    simp only [Run, hc, parseCase, hr, h1, h2, h3, if_true, if_false]
    rcases r with ⟨f1, err⟩ | ⟨code, out⟩
    · obtain ⟨rfl, hp, hn⟩ := hw
      have hname : f1.name = "createwallet" := by rw [hn]; decide
      simp only [runParsed, hp, if_true, hname]
      simp [newCmds, NewFlagSet, FlagSet.define, andThen_returned, invoke_skip, andThen_skip,
        selectedHandler, runHandler]
    · rfl
  by_cases h5 : cmd = "listaddresses"
  · subst h5
    obtain ⟨r, hr, hw⟩ := FlagSet.Parse_total env newCmds.listAddressesCmd rest
    have hc : commandFlagSet "listaddresses" = some newCmds.listAddressesCmd := by decide
    simp only [Run, hc, parseCase, hr, h1, h2, h3, h4, if_true, if_false]
    rcases r with ⟨f1, err⟩ | ⟨code, out⟩
    · obtain ⟨rfl, hp, hn⟩ := hw
      have hname : f1.name = "listaddresses" := by rw [hn]; decide
      simp only [runParsed, hp, if_true, hname]
      simp [newCmds, NewFlagSet, FlagSet.define, andThen_returned, invoke_skip, andThen_skip,
        selectedHandler, runHandler]
    · rfl
  by_cases h6 : cmd = "printchain"
  · subst h6
    obtain ⟨r, hr, hw⟩ := FlagSet.Parse_total env newCmds.printChainCmd rest
    have hc : commandFlagSet "printchain" = some newCmds.printChainCmd := by decide
    simp only [Run, hc, parseCase, hr, h1, h2, h3, h4, h5, if_true, if_false]
    rcases r with ⟨f1, err⟩ | ⟨code, out⟩
    · obtain ⟨rfl, hp, hn⟩ := hw
      have hname : f1.name = "printchain" := by rw [hn]; decide
      simp only [runParsed, hp, if_true, hname]
      simp [newCmds, NewFlagSet, FlagSet.define, andThen_returned, invoke_skip, andThen_skip,
        selectedHandler, runHandler]
    · rfl
  by_cases h7 : cmd = "send"
  · subst h7
    obtain ⟨r, hr, hw⟩ := FlagSet.Parse_total env newCmds.sendCmd rest
    have hc : commandFlagSet "send" = some newCmds.sendCmd := by decide
    simp only [Run, hc, parseCase, hr, h1, h2, h3, h4, h5, h6, if_true, if_false]
    rcases r with ⟨f1, err⟩ | ⟨code, out⟩
    · obtain ⟨rfl, hp, hn⟩ := hw
      have hname : f1.name = "send" := by rw [hn]; decide
      simp only [runParsed, hp, if_true, hname]
      simp [newCmds, NewFlagSet, FlagSet.define, andThen_returned, invoke_skip, andThen_skip,
        selectedHandler, runHandler]
      split_ifs <;> simp_all [runHandler] <;> omega
    · rfl
  simp [Run, commandFlagSet, h1, h2, h3, h4, h5, h6, h7]


/-- A handler call contributes exactly its own `Invoke` event. -/
theorem invoked_invoke (fuel : Nat) (h : Handler) (w : σ) :
    invoked (invoke h (runHandler hoji fuel h w)).2.1 = [h] := by
  have := invoked_runHandler hoji fuel h w
  simp only [invoke, invoked, List.filterMap_cons, Event.handler] at this ⊢
  simp [this]

/-- C9, as amended: `Run` invokes a handler exactly when the first argument is one of the
seven command names, the flags after it parse, and the required flag values are present; it
then invokes that one handler with the parsed values.  When the flags do not parse, `Parse`
prints the usage and leaves with status 2 (or with the help status, after `-h`), no handler
having been invoked.  In every remaining case `Run` prints a usage message and exits with
status 1, the world untouched. -/
theorem Run_dispatch (env : GoEnv) (fuel : Nat) (osArgs : List String) (w : σ) :
    (∀ h, expectedHandler env osArgs = some h →
      Run hoji env fuel osArgs w = invoke h (runHandler hoji fuel h w)) ∧
    invoked (Run hoji env fuel osArgs w).2.1 = (expectedHandler env osArgs).toList ∧
    (∀ code out, parseExit env osArgs = some (code, out) →
      Run hoji env fuel osArgs w = (Outcome.exit code, out, w) ∧
      ((code = env.helpStatus ∧ ∃ name, out = [Event.Usage name]) ∨
       (code = 2 ∧ ∃ e name, out = [Event.FlagError e, Event.Usage name]))) ∧
    (expectedHandler env osArgs = none → parseExit env osArgs = none →
      (Run hoji env fuel osArgs w).1 = Outcome.exit 1 ∧
      (Run hoji env fuel osArgs w).2.2 = w ∧
      ((Run hoji env fuel osArgs w).2.1 = printUsage ∨
        ∃ name, (Run hoji env fuel osArgs w).2.1 = [Event.Usage name])) := by
  rcases osArgs with _ | ⟨prog, _ | ⟨cmd, rest⟩⟩
  · simp [Run, expectedHandler, parseOutcome, parseExit, invoked, printUsage, Event.handler]
  · simp [Run, expectedHandler, parseOutcome, parseExit, invoked, printUsage, Event.handler]
  · rw [Run_eq]
    rcases hc : commandFlagSet cmd with _ | f0
    · simp [expectedHandler, parseOutcome, parseExit, hc, invoked, printUsage, Event.handler]
    · obtain ⟨r, hr, hw⟩ := FlagSet.Parse_total env f0 rest
      rcases r with ⟨f1, err⟩ | ⟨code, out⟩
      · rcases hsel : selectedHandler cmd f1 with _ | h
        · simp [expectedHandler, parseOutcome, parseExit, hc, hr, hsel, invoked, Event.handler]
        · simp [expectedHandler, parseOutcome, parseExit, hc, hr, hsel, invoked_invoke]
      · rcases hw with ⟨h1, h2⟩ | ⟨h1, e, h2⟩
        · simp [expectedHandler, parseOutcome, parseExit, hc, hr, h1, h2, invoked,
            Event.handler]
        · simp [expectedHandler, parseOutcome, parseExit, hc, hr, h1, h2, invoked,
            Event.handler]

/-- Witness of C9 as amended, on the small ledger: a complete `send` command line invokes
`send` with the parsed values. -/
theorem Run_dispatch_witness :
    Run demoHoji demoEnv 5 ["hoji", "send", "-from", "Addr1", "-to=Addr2", "-amount", "3"]
        demoSent =
      invoke (Handler.send "Addr1" "Addr2" 3)
        (runHandler demoHoji 5 (Handler.send "Addr1" "Addr2" 3) demoSent) :=
  (Run_dispatch demoHoji demoEnv 5
    ["hoji", "send", "-from", "Addr1", "-to=Addr2", "-amount", "3"] demoSent).1
    (Handler.send "Addr1" "Addr2" 3) (by decide)

/-- C9 as stated fails: on `getbalance -address Addr1 -x` the command name is known and the
address is present, yet no handler is invoked and the exit status is 2, not 1. -/
theorem Run_undefined_flag_exits_2 :
    ¬ (invoked (Run demoHoji demoEnv 0 ["hoji", "getbalance", "-address", "Addr1", "-x"]
          demoFunded).2.1 = [Handler.getBalance "Addr1"] ∨
       (Run demoHoji demoEnv 0 ["hoji", "getbalance", "-address", "Addr1", "-x"]
          demoFunded).1 = Outcome.exit 1) := by
  decide

/-- C10 fails on the code: `listaddresses` is accepted by `Run`, which invokes
`listAddresses` for it, but it is not among the commands that `printUsage` lists; the six
listed commands are all accepted. -/
theorem listaddresses_missing_from_usage :
    (∀ (env : GoEnv) (fuel : Nat) (prog : String) (w : σ),
      invoked (Run hoji env fuel [prog, "listaddresses"] w).2.1 = [Handler.listAddresses]) ∧
    "listaddresses" ∉ usageCommands ∧
    usageCommands =
      ["getbalance", "createblockchain", "reindexutxo", "createwallet", "printchain", "send"] ∧
    ∀ c ∈ usageCommands, (commandFlagSet c).isSome = true := by
  refine ⟨fun env fuel prog w => ?_, by decide, by decide, by decide⟩
  have hc : commandFlagSet "listaddresses" = some newCmds.listAddressesCmd := by decide
  have hp : newCmds.listAddressesCmd.Parse env [] =
      some (ParseResult.returned { newCmds.listAddressesCmd with parsed := true } none) := by
    simp [FlagSet.Parse, FlagSet.parseLoop, FlagSet.parseOne, newCmds, NewFlagSet]
  have hs : selectedHandler "listaddresses" { newCmds.listAddressesCmd with parsed := true } =
      some Handler.listAddresses := by decide
  rw [Run_eq]
  simp only [hc, hp, hs]
  exact invoked_invoke hoji fuel Handler.listAddresses w

/-- C5 fails on the code: whatever `NewBlockchain` returns, `reindexUTXO` goes on to call
`Reindex` on the handle it got.  With no chain created, `NewBlockchain` returns a nil handle
and an error; `reindexUTXO` drops the error, calls `Reindex` and `CountTransactions` on the
nil handle and returns normally, and `getBalance`, `send` and `printChain` drop it and end in a
nil dereference instead of reporting it. -/
theorem open_error_dropped :
    (∀ w : σ, Event.Reindex { Bc := (hoji.NewBlockchain w).1.1 } ∈ (reindexUTXO hoji w).2.1) ∧
    demoHoji.NewBlockchain demoEmpty =
      ((none, some "no existing blockchain found"), demoEmpty) ∧
    reindexUTXO demoHoji demoEmpty =
      (Outcome.returned,
        [Event.NewBlockchain none (some "no existing blockchain found"),
         Event.Reindex { Bc := none }, Event.CountTransactions { Bc := none } 0 none,
         Event.Printf "Done! There are %d transactions in the UTXO set.\n" [Arg.int 0]],
        demoEmpty) ∧
    (getBalance demoHoji "Addr1" demoEmpty).1 = Outcome.nilDeref ∧
    (send demoHoji "Addr1" "Addr2" 1 demoEmpty).1 = Outcome.nilDeref ∧
    (printChain demoHoji 1 demoEmpty).1 = Outcome.nilDeref := by
  refine ⟨fun w => ?_, by decide, by decide, by decide, by decide, by decide⟩
  rcases h0 : hoji.NewBlockchain w with ⟨⟨bc, err⟩, w1⟩
  rcases h1 : hoji.CountTransactions { Bc := bc } (hoji.Reindex { Bc := bc } w1) with
    ⟨⟨count, _ | e⟩, w3⟩
  all_goals simp [reindexUTXO, h0, h1]

/-- Wrapping an intermediate balance does not change the wrapped total. -/
theorem wrapInt_add (x v : Int) : wrapInt (wrapInt x + v) = wrapInt (x + v) := by
  simp only [wrapInt, IntSize]
  norm_num
  omega

/-- An integer in the range of a 64-bit `int` is left alone by the wrap-around. -/
theorem wrapInt_of_fits (x : Int) (h : -(2 ^ 63) ≤ x ∧ x < 2 ^ 63) : wrapInt x = x := by
  simp only [wrapInt, IntSize]
  norm_num at h ⊢
  omega

/-- The loop of `getBalance` started from a wrapped balance yields the wrapped total. -/
theorem sumBalance_wrap (outs : List TXOutput) :
    ∀ x : Int, sumBalance (wrapInt x) outs = wrapInt (x + (outs.map TXOutput.Value).sum) := by
  induction outs with
  | nil => intro x; simp [sumBalance]
  | cons o rest ih =>
    intro x
    simp only [sumBalance, List.map_cons, List.sum_cons]
    rw [wrapInt_add, ih, add_assoc]

/-- The loop of `getBalance` yields the wrapped sum of the values. -/
theorem sumBalance_zero (outs : List TXOutput) :
    sumBalance 0 outs = wrapInt (outs.map TXOutput.Value).sum := by
  have h := sumBalance_wrap outs 0
  have h0 : wrapInt 0 = 0 := by decide
  rw [h0] at h
  simpa using h

/-- C7, as amended: the balance that `getBalance` prints for the outputs `FindUTXO` returned
is the sum of their `Value` fields brought into the range of Go `int` by wrap-around: the sum
itself whenever it fits in 64 bits, 0 for no outputs; and it is the same for every permutation
of the outputs. -/
theorem getBalance_reports_wrapped_sum (address : String) (w w1 w2 : σ) (bc : Blockchain)
    (e0 : GoError) (outs : List TXOutput)
    (hv : hoji.ValidateAddress address = true)
    (hopen : hoji.NewBlockchain w = ((some bc, e0), w1))
    (hfind : hoji.FindUTXO { Bc := some bc } address w1 = ((outs, none), w2)) :
    getBalance hoji address w =
      (Outcome.returned,
        [Event.ValidateAddress address true, Event.NewBlockchain (some bc) e0,
         Event.FindUTXO { Bc := some bc } address outs none,
         Event.Printf "Balance of '%s': %d\n"
           [Arg.str address, Arg.int (wrapInt (outs.map TXOutput.Value).sum)],
         Event.Close bc.DB],
        hoji.Close bc.DB w2) ∧
    (-(2 ^ 63) ≤ (outs.map TXOutput.Value).sum ∧ (outs.map TXOutput.Value).sum < 2 ^ 63 →
      wrapInt (outs.map TXOutput.Value).sum = (outs.map TXOutput.Value).sum) ∧
    (outs = [] → wrapInt (outs.map TXOutput.Value).sum = 0) ∧
    ∀ outs2 : List TXOutput, outs2.Perm outs → sumBalance 0 outs2 = sumBalance 0 outs := by
  refine ⟨?_, wrapInt_of_fits _, ?_, ?_⟩
  · simp [getBalance, getBalanceBody, hv, hopen, hfind, sumBalance_zero]
  · rintro rfl
    decide
  · intro outs2 hperm
    rw [sumBalance_zero, sumBalance_zero, (hperm.map TXOutput.Value).sum_eq]

/-- Witness of C7 as amended, on the small ledger: after the payment `Addr1` owns 5 and 10. -/
theorem getBalance_reports_wrapped_sum_witness :
    getBalance demoHoji "Addr1" demoSent =
      (Outcome.returned,
        [Event.ValidateAddress "Addr1" true, Event.NewBlockchain (some { DB := 1 }) none,
         Event.FindUTXO { Bc := some { DB := 1 } } "Addr1"
           [{ Value := 5, PubKeyHash := demoLock "Addr1" },
            { Value := 10, PubKeyHash := demoLock "Addr1" }] none,
         Event.Printf "Balance of '%s': %d\n" [Arg.str "Addr1", Arg.int (wrapInt
           (([{ Value := 5, PubKeyHash := demoLock "Addr1" },
              { Value := 10, PubKeyHash := demoLock "Addr1" }] : List TXOutput).map
             TXOutput.Value).sum)],
         Event.Close 1],
        demoHoji.Close 1 demoSent) :=
  (getBalance_reports_wrapped_sum demoHoji "Addr1" demoSent demoSent demoSent { DB := 1 } none
    [{ Value := 5, PubKeyHash := demoLock "Addr1" },
     { Value := 10, PubKeyHash := demoLock "Addr1" }] (by decide) (by decide) (by decide)).1

/-- C7 as stated fails: for two unspent outputs of 2^62 each the balance printed is -2^63,
not their sum 2^63. -/
theorem getBalance_sum_overflows :
    (demoHoji.FindUTXO { Bc := some { DB := 1 } } "Addr1" demoRich).1 =
      ([{ Value := 2 ^ 62, PubKeyHash := demoLock "Addr1" },
        { Value := 2 ^ 62, PubKeyHash := demoLock "Addr1" }], none) ∧
    Event.Printf "Balance of '%s': %d\n" [Arg.str "Addr1", Arg.int (2 ^ 62 + 2 ^ 62)] ∉
      (getBalance demoHoji "Addr1" demoRich).2.1 ∧
    Event.Printf "Balance of '%s': %d\n" [Arg.str "Addr1", Arg.int (-(2 ^ 63))] ∈
      (getBalance demoHoji "Addr1" demoRich).2.1 := by
  decide

end Theorems

end Hojicoin
